import Mathlib

/-!
Verification of the Hasaba ledger core (src/src/App.tsx, with the variant
implementation in src/unnamed/part_000 embedded separately where it differs).

Strings are modelled as lists of characters (`Str`).  JavaScript numbers that
can be `NaN` (transaction amounts, which CSV import can set to `NaN`) are
modelled by `JNum`; all other numeric fields are integers (cents).  JavaScript
`Record<string, number>` objects are modelled as insertion-ordered association
lists (`setKey` updates in place, appends new keys at the end, exactly like
property assignment; `getKey` is property lookup).
-/

namespace Hasaba

abbrev Str := List Char

def str (s : String) : Str := s.data

/-- A JavaScript number that is either an integer amount of cents or NaN. -/
inductive JNum where
  | num (n : Int)
  | nan
deriving DecidableEq, Repr

/-- `x || 0` on a JS number: `NaN` and `0` are falsy. -/
def JNum.or0 : JNum → JNum
  | .num n => .num n
  | .nan => .num 0

/-- JS addition; NaN is absorbing. -/
def JNum.add : JNum → JNum → JNum
  | .num a, .num b => .num (a + b)
  | _, _ => .nan

/-- JS subtraction; NaN is absorbing. -/
def JNum.sub : JNum → JNum → JNum
  | .num a, .num b => .num (a - b)
  | _, _ => .nan

/-- JS negation. -/
def JNum.neg : JNum → JNum
  | .num a => .num (-a)
  | .nan => .nan

-- === Association-list model of a JS record ===
/-- Property read: `m[k]`, `undefined` modelled as `none`. -/
def getKey {α : Type} (m : List (Str × α)) (k : Str) : Option α :=
  (m.find? (fun p => decide (p.1 = k))).map (fun p => p.2)

/-- Property write: `m[k] = v`.  Updates the existing entry in place or
appends a new one, matching JS insertion-order semantics. -/
def setKey {α : Type} (m : List (Str × α)) (k : Str) (v : α) : List (Str × α) :=
  match m with
  | [] => [(k, v)]
  | (k', v') :: rest => if k' = k then (k, v) :: rest else (k', v') :: setKey rest k v

-- === Types (src/src/App.tsx lines 33-46, 131-143) ===
inductive AccountType where
  | CASH
  | CREDIT
deriving DecidableEq, Repr

structure Account where
  id : Str
  name : Str
  type : AccountType
  initialBalanceCents : Option Int
  creditLimitCents : Option Int
  initialDebtCents : Option Int
deriving DecidableEq, Repr

structure Category where
  id : Str
  name : Str
  kind : Str
deriving DecidableEq, Repr

/-- The transaction `type` field is kept as a raw string, as in the source,
where it is compared against the three literals below. -/
def strINGRESO : Str := str "INGRESO"

def strGASTO : Str := str "GASTO"

def strTRANSFERENCIA : Str := str "TRANSFERENCIA"

structure Tx where
  id : Str
  type : Str
  date : Str
  amountCents : JNum
  accountFromId : Option Str
  accountToId : Option Str
  categoryId : Option Str
  paymentMethod : Option Str
  note : Option Str
  createdAt : Int
  updatedAt : Int
deriving DecidableEq, Repr

-- === Balance engine (src/src/App.tsx lines 145-194) ===
structure BalState where
  ef : List (Str × Int)
  debt : List (Str × Int)
deriving DecidableEq, Repr

/-- `accounts.forEach(...)` seeding step: CASH seeds `ef`, otherwise `debt`. -/
def initStep (s : BalState) (a : Account) : BalState :=
  match a.type with
  | .CASH => { s with ef := setKey s.ef a.id (a.initialBalanceCents.getD 0) }
  | .CREDIT => { s with debt := setKey s.debt a.id (a.initialDebtCents.getD 0) }

def initState (accounts : List Account) : BalState :=
  accounts.foldl initStep ⟨[], []⟩

/-- `const amount = Number(t.amountCents || 0)`: NaN is falsy and coerces
through `|| 0` to `0`. -/
def amtOf (t : Tx) : Int :=
  match t.amountCents with
  | .num n => n
  | .nan => 0

/-- `accounts.find(a => a.id === x)` where `x` may be `null`. -/
def findAcc (accounts : List Account) (o : Option Str) : Option Account :=
  match o with
  | none => none
  | some x => accounts.find? (fun a => decide (a.id = x))

/-- The body of the `for (const t of txs)` loop of `computeBalances`
(App.tsx lines 153-180).  The `t.accountToId in ef` guard keeps the income
update total, so the written value `(getKey ... ).getD 0 + amount` equals the
stored value plus the amount. -/
def applyTx (accounts : List Account) (s : BalState) (t : Tx) : BalState :=
  let amount := amtOf t
  if amount = 0 then s
  else if t.type = strINGRESO then
    match t.accountToId with
    | some toId =>
        if toId ≠ [] ∧ (getKey s.ef toId).isSome then
          { s with ef := setKey s.ef toId ((getKey s.ef toId).getD 0 + amount) }
        else s
    | none => s
  else if t.type = strGASTO then
    match findAcc accounts t.accountFromId with
    | some fromA =>
        if fromA.type = AccountType.CREDIT then
          { s with debt := setKey s.debt fromA.id ((getKey s.debt fromA.id).getD 0 + amount) }
        else
          { s with ef := setKey s.ef fromA.id ((getKey s.ef fromA.id).getD 0 - amount) }
    | none => s
  else if t.type = strTRANSFERENCIA then
    match findAcc accounts t.accountFromId, findAcc accounts t.accountToId with
    | some fromA, some toA =>
        if fromA.id = toA.id then s
        else if toA.type = AccountType.CREDIT then
          let s1 := { s with debt := setKey s.debt toA.id ((getKey s.debt toA.id).getD 0 - amount) }
          if fromA.type = AccountType.CASH then
            { s1 with ef := setKey s1.ef fromA.id ((getKey s1.ef fromA.id).getD 0 - amount) }
          else s1
        else if fromA.type = AccountType.CASH ∧ toA.type = AccountType.CASH then
          let s1 := { s with ef := setKey s.ef fromA.id ((getKey s.ef fromA.id).getD 0 - amount) }
          { s1 with ef := setKey s1.ef toA.id ((getKey s1.ef toA.id).getD 0 + amount) }
        else s
    | _, _ => s
  else s

def foldTxs (accounts : List Account) (txs : List Tx) : BalState :=
  txs.foldl (applyTx accounts) (initState accounts)

structure AccountBalance where
  account : Account
  balanceCents : Int
  creditAvailableCents : Option Int
deriving DecidableEq, Repr

structure Balances where
  accounts : List AccountBalance
  efectivoTotal : Int
  creditoDisponibleTotal : Int
deriving DecidableEq, Repr

/-- One entry of the final `accounts.map(...)` (App.tsx lines 183-191). -/
def perAccountEntry (s : BalState) (a : Account) : AccountBalance :=
  match a.type with
  | .CREDIT =>
      let d := (getKey s.debt a.id).getD 0
      { account := a, balanceCents := -d,
        creditAvailableCents := some (a.creditLimitCents.getD 0 - d) }
  | .CASH =>
      { account := a, balanceCents := (getKey s.ef a.id).getD 0,
        creditAvailableCents := none }

/-- The contribution of one account to `creditoDisponibleTotal`, accumulated
during the same pass in the source. -/
def creditDispOf (s : BalState) (a : Account) : Int :=
  match a.type with
  | .CREDIT => a.creditLimitCents.getD 0 - (getKey s.debt a.id).getD 0
  | .CASH => 0

def computeBalances (accounts : List Account) (txs : List Tx) : Balances :=
  let s := foldTxs accounts txs
  { accounts := accounts.map (perAccountEntry s),
    efectivoTotal := (s.ef.map (fun p => p.2)).foldl (· + ·) 0,
    creditoDisponibleTotal := (accounts.map (creditDispOf s)).foldl (· + ·) 0 }

/-- `summary.accounts.find(x => x.account.id === id)`, how the UI reads one
account's result. -/
def entryOf (b : Balances) (id : Str) : Option AccountBalance :=
  b.accounts.find? (fun x => decide (x.account.id = id))

def balanceOf (b : Balances) (id : Str) : Int :=
  ((entryOf b id).map (fun x => x.balanceCents)).getD 0

def creditAvailOf (b : Balances) (id : Str) : Option Int :=
  ((entryOf b id).map (fun x => x.creditAvailableCents)).getD none

-- === Per-transaction delta characterization of the balance engine ===
/-- Whether `k` is the id of some CASH account: exactly the key set of `ef`
after seeding. -/
def isCashId (accounts : List Account) (k : Str) : Bool :=
  accounts.any (fun a => decide (a.id = k) && decide (a.type = AccountType.CASH))

/-- Whether `k` is the id of some CREDIT account: the key set of `debt`. -/
def isCreditId (accounts : List Account) (k : Str) : Bool :=
  accounts.any (fun a => decide (a.id = k) && decide (a.type = AccountType.CREDIT))

/-- The net change `applyTx` makes to `ef` at key `k` (on states whose key
sets agree with the seeded ones). -/
def efDelta (accounts : List Account) (t : Tx) (k : Str) : Int :=
  if amtOf t = 0 then 0
  else if t.type = strINGRESO then
    match t.accountToId with
    | some toId =>
        if toId ≠ [] ∧ isCashId accounts toId then (if k = toId then amtOf t else 0) else 0
    | none => 0
  else if t.type = strGASTO then
    match findAcc accounts t.accountFromId with
    | some fromA =>
        if fromA.type = AccountType.CREDIT then 0
        else (if k = fromA.id then -(amtOf t) else 0)
    | none => 0
  else if t.type = strTRANSFERENCIA then
    match findAcc accounts t.accountFromId, findAcc accounts t.accountToId with
    | some fromA, some toA =>
        if fromA.id = toA.id then 0
        else if toA.type = AccountType.CREDIT then
          (if fromA.type = AccountType.CASH then (if k = fromA.id then -(amtOf t) else 0) else 0)
        else if fromA.type = AccountType.CASH ∧ toA.type = AccountType.CASH then
          (if k = fromA.id then -(amtOf t) else 0) + (if k = toA.id then amtOf t else 0)
        else 0
    | _, _ => 0
  else 0

/-- The net change `applyTx` makes to `debt` at key `k`. -/
def debtDelta (accounts : List Account) (t : Tx) (k : Str) : Int :=
  if amtOf t = 0 then 0
  else if t.type = strINGRESO then 0
  else if t.type = strGASTO then
    match findAcc accounts t.accountFromId with
    | some fromA =>
        if fromA.type = AccountType.CREDIT then (if k = fromA.id then amtOf t else 0) else 0
    | none => 0
  else if t.type = strTRANSFERENCIA then
    match findAcc accounts t.accountFromId, findAcc accounts t.accountToId with
    | some fromA, some toA =>
        if fromA.id = toA.id then 0
        else if toA.type = AccountType.CREDIT then (if k = toA.id then -(amtOf t) else 0)
        else 0
    | _, _ => 0
  else 0

/-- States reachable by the engine: key sets match the account registry and
keys are duplicate-free. -/
def Inv (accounts : List Account) (s : BalState) : Prop :=
  (∀ k, (getKey s.ef k).isSome = isCashId accounts k) ∧
  (∀ k, (getKey s.debt k).isSome = isCreditId accounts k) ∧
  (s.ef.map Prod.fst).Nodup ∧ (s.debt.map Prod.fst).Nodup

/-- Total `ef` change of a transaction list at key `k`. -/
def efSum (accounts : List Account) (txs : List Tx) (k : Str) : Int :=
  (txs.map (fun t => efDelta accounts t k)).sum

/-- Total `debt` change of a transaction list at key `k`. -/
def debtSum (accounts : List Account) (txs : List Tx) (k : Str) : Int :=
  (txs.map (fun t => debtDelta accounts t k)).sum

-- Concrete sample data for witnesses and counterexamples.
def wAcct : Account := ⟨str "w", str "Wallet", AccountType.CASH, some 0, none, none⟩

def wTxIncome : Tx :=
  ⟨str "t1", strINGRESO, str "2024-01-01", JNum.num 100, none, some (str "w"),
    none, none, none, 0, 0⟩

def wTxExpense : Tx :=
  ⟨str "t2", strGASTO, str "2024-01-02", JNum.num 30, some (str "w"), none,
    none, none, none, 0, 0⟩

def accA4 : Account := ⟨str "a", str "A", AccountType.CASH, some 10000, none, none⟩

def accB4 : Account := ⟨str "b", str "B", AccountType.CASH, some 0, none, none⟩

def txC4 : Tx :=
  ⟨str "t3", strTRANSFERENCIA, str "2024-01-01", JNum.num 4000, some (str "a"),
    some (str "b"), none, none, none, 0, 0⟩

def ceCredit1 : Account := ⟨str "c1", str "CardOne", AccountType.CREDIT, none, some 0, some 0⟩

def ceCredit2 : Account := ⟨str "c2", str "CardTwo", AccountType.CREDIT, none, some 0, some 0⟩

def ceCash3 : Account := ⟨str "d", str "CashD", AccountType.CASH, some 0, none, none⟩

def ceTxCC : Tx :=
  ⟨str "t5", strTRANSFERENCIA, str "2024-01-01", JNum.num 100, some (str "c1"),
    some (str "c2"), none, none, none, 0, 0⟩

def ceTxCD : Tx :=
  ⟨str "t6", strTRANSFERENCIA, str "2024-01-01", JNum.num 100, some (str "c1"),
    some (str "d"), none, none, none, 0, 0⟩

def txGhost : Tx :=
  ⟨str "t7", strGASTO, str "2024-01-03", JNum.num 700, some (str "ghost"), none,
    none, none, none, 0, 0⟩

/-!
The variant implementation in `src/unnamed/part_000` differs from
`src/src/App.tsx` in its Income handling: it also credits Income against a
Credit destination's debt.  It is embedded here (over the same `Account`/`Tx`
types) to document the divergence; its records hold raw JS numbers (`JNum`)
because it adds `t.amountCents` without the `Number(x || 0)` normalization.
-/
namespace Legacy

/-- `(x || 0)` on a possibly-undefined JS number. -/
def jGetOr0 (o : Option JNum) : JNum :=
  match o with
  | some v => v.or0
  | none => JNum.num 0

structure LState where
  cash : List (Str × JNum)
  debt : List (Str × JNum)
deriving DecidableEq, Repr

def initStep (s : LState) (a : Account) : LState :=
  match a.type with
  | .CASH => { s with cash := setKey s.cash a.id (JNum.num (a.initialBalanceCents.getD 0)) }
  | .CREDIT => { s with debt := setKey s.debt a.id (JNum.num (a.initialDebtCents.getD 0)) }

def initState (accounts : List Account) : LState :=
  accounts.foldl initStep ⟨[], []⟩

/-- Loop body of the part_000 `computeBalances` (`txs.forEach`): note the two
sequential Income updates, the second of which pays down a Credit
destination's debt. -/
def applyTx (accounts : List Account) (s : LState) (t : Tx) : LState :=
  if t.type = strINGRESO then
    let s1 :=
      match t.accountToId with
      | some toId =>
          if toId ≠ [] ∧ (getKey s.cash toId).isSome then
            { s with cash := setKey s.cash toId (((getKey s.cash toId).getD (JNum.num 0)).add t.amountCents) }
          else s
      | none => s
    match t.accountToId with
    | some toId =>
        if toId ≠ [] ∧ (getKey s1.debt toId).isSome then
          { s1 with debt := setKey s1.debt toId (((getKey s1.debt toId).getD (JNum.num 0)).sub t.amountCents) }
        else s1
    | none => s1
  else if t.type = strGASTO then
    match findAcc accounts t.accountFromId with
    | some fromA =>
        if fromA.type = AccountType.CREDIT then
          { s with debt := setKey s.debt fromA.id ((jGetOr0 (getKey s.debt fromA.id)).add t.amountCents) }
        else
          { s with cash := setKey s.cash fromA.id ((jGetOr0 (getKey s.cash fromA.id)).sub t.amountCents) }
    | none => s
  else if t.type = strTRANSFERENCIA then
    match findAcc accounts t.accountFromId, findAcc accounts t.accountToId with
    | some fromA, some toA =>
        if fromA.id = toA.id then s
        else if toA.type = AccountType.CREDIT then
          let s1 := { s with debt := setKey s.debt toA.id ((jGetOr0 (getKey s.debt toA.id)).sub t.amountCents) }
          if fromA.type = AccountType.CASH then
            { s1 with cash := setKey s1.cash fromA.id ((jGetOr0 (getKey s1.cash fromA.id)).sub t.amountCents) }
          else s1
        else if fromA.type = AccountType.CASH ∧ toA.type = AccountType.CASH then
          let s1 := { s with cash := setKey s.cash fromA.id ((jGetOr0 (getKey s.cash fromA.id)).sub t.amountCents) }
          { s1 with cash := setKey s1.cash toA.id ((jGetOr0 (getKey s1.cash toA.id)).add t.amountCents) }
        else s
    | _, _ => s
  else s

structure LAccountBalance where
  account : Account
  balanceCents : JNum
  creditAvailableCents : Option JNum
deriving DecidableEq, Repr

structure LBalances where
  accounts : List LAccountBalance
  liquidez : JNum
deriving DecidableEq, Repr

def perAccountEntry (s : LState) (a : Account) : LAccountBalance :=
  match a.type with
  | .CREDIT =>
      let d := jGetOr0 (getKey s.debt a.id)
      { account := a, balanceCents := d.neg,
        creditAvailableCents := some ((JNum.num (a.creditLimitCents.getD 0)).sub d) }
  | .CASH =>
      { account := a, balanceCents := jGetOr0 (getKey s.cash a.id),
        creditAvailableCents := none }

def liquidezIds : List Str :=
  [str "daviplata", str "nequi", str "empresa", str "efectivo", str "ahorros"]

def computeBalances (accounts : List Account) (txs : List Tx) : LBalances :=
  let s := txs.foldl (applyTx accounts) (initState accounts)
  { accounts := accounts.map (perAccountEntry s),
    liquidez := (liquidezIds.map (fun id => jGetOr0 (getKey s.cash id))).foldl
      JNum.add (JNum.num 0) }

def balanceOf (b : LBalances) (id : Str) : Option JNum :=
  (b.accounts.find? (fun x => decide (x.account.id = id))).map
    (fun x => x.balanceCents)

end Legacy

-- Scenario D data: a Credit card with limit 100000 and debt 5000 receiving
-- an Income of 20000.
def cardD : Account := ⟨str "card", str "Card", AccountType.CREDIT, none, some 100000, some 5000⟩

def txD : Tx :=
  ⟨str "t4", strINGRESO, str "2024-01-01", JNum.num 20000, none, some (str "card"),
    none, none, none, 0, 0⟩

-- === Registry reconciliation (src/src/App.tsx lines 58-83, 106-128) ===
def defaultAccounts : List Account :=
  [⟨str "daviplata", str "Daviplata", AccountType.CASH, some 0, none, none⟩,
   ⟨str "nequi", str "Nequi", AccountType.CASH, some 0, none, none⟩,
   ⟨str "visa", str "Tarjeta Visa", AccountType.CREDIT, none, some 300000000, some 0⟩,
   ⟨str "rotativo", str "Crédito rotativo", AccountType.CREDIT, none, some 500000000, some 0⟩,
   ⟨str "empresa", str "Cuenta de la empresa", AccountType.CASH, some 0, none, none⟩,
   ⟨str "efectivo", str "Efectivo", AccountType.CASH, some 0, none, none⟩,
   ⟨str "ahorros", str "Cuenta de ahorros", AccountType.CASH, some 0, none, none⟩,
   ⟨str "inversion", str "Inversión - Ahorro", AccountType.CASH, some 0, none, none⟩]

def defaultCategories : List Category :=
  [⟨str "vivienda_servicios", str "Vivienda - Servicios", str "GASTO"⟩,
   ⟨str "mercado", str "Mercado", str "GASTO"⟩,
   ⟨str "restaurantes_ocio", str "Restaurantes - Ocio", str "GASTO"⟩,
   ⟨str "transporte", str "Transporte", str "GASTO"⟩,
   ⟨str "salud_bienestar", str "Salud - bienestar", str "GASTO"⟩,
   ⟨str "mascota", str "Mascota", str "GASTO"⟩,
   ⟨str "aseo_hogar", str "Aseo - hogar", str "GASTO"⟩,
   ⟨str "suscripciones", str "Suscripciones", str "GASTO"⟩,
   ⟨str "trabajos", str "Trabajos", str "INGRESO"⟩,
   ⟨str "ventas_reembolsos", str "Ventas - reembolsos", str "INGRESO"⟩,
   ⟨str "rendimientos", str "Rendimientos", str "INGRESO"⟩]

/-- `new Map(current.map(a => [a.id, a]))`: repeated `set`. -/
def accMapStep (m : List (Str × Account)) (a : Account) : List (Str × Account) :=
  setKey m a.id a

def buildById (current : List Account) : List (Str × Account) :=
  current.foldl accMapStep []

/-- The loop body over `defaultAccounts`: `if (!byId.has(a.id)) { byId.set(a.id, a); changed = true }`. -/
def seedStep (p : List (Str × Account) × Bool) (a : Account) : List (Str × Account) × Bool :=
  if (getKey p.1 a.id).isSome then p else (setKey p.1 a.id a, true)

def ensureAccounts (current : List Account) : List Account :=
  let r := defaultAccounts.foldl seedStep (buildById current, false)
  if r.2 then r.1.map (fun q => q.2) else current

/-- The loop body over `defaultCategories`, with `have` (the id set) computed
once before the loop, exactly as in the source. -/
def ensureCategories (current : List Category) : List Category :=
  let haveIds := current.map (fun c => c.id)
  let r := defaultCategories.foldl
    (fun (p : List Category × Bool) c =>
      if c.id ∈ haveIds then p else (p.1 ++ [c], true)) (current, false)
  if r.2 then r.1 else current

def dupA1 : Account := ⟨str "daviplata", str "First copy", AccountType.CASH, some 1, none, none⟩

def dupA2 : Account := ⟨str "daviplata", str "Second copy", AccountType.CASH, some 2, none, none⟩

def modifiedDaviplata : Account :=
  ⟨str "daviplata", str "My renamed Daviplata", AccountType.CASH, some 777, none, none⟩

def modifiedMercado : Category := ⟨str "mercado", str "Groceries renamed", str "GASTO"⟩

-- === CSV (src/src/App.tsx lines 202-239) ===
/-- JS `String.prototype.split` with a one-character separator. -/
def splitOnChar (c : Char) : Str → List Str
  | [] => [[]]
  | x :: xs =>
    let r := splitOnChar c xs
    if x = c then [] :: r
    else
      match r with
      | [] => [[x]]
      | y :: ys => (x :: y) :: ys

/-- JS `Array.prototype.join` with a one-character separator. -/
def intercalateChar (c : Char) : List Str → Str
  | [] => []
  | [x] => x
  | x :: y :: ys => x ++ c :: intercalateChar c (y :: ys)

-- === Decimal rendering and parsing of JS numbers ===
def digitChar (d : Nat) : Char := Char.ofNat (48 + d)

/-- Decimal digits of a natural number, most significant first, written with
structural recursion on a fuel argument so that it evaluates by kernel
reduction; fuel `n + 1` always suffices. -/
def natDigitsAux : Nat → Nat → Str
  | 0, _ => []
  | fuel + 1, n =>
    if n < 10 then [digitChar n]
    else natDigitsAux fuel (n / 10) ++ [digitChar (n % 10)]

/-- `String(n)` for a non-negative integer. -/
def natDigits (n : Nat) : Str := natDigitsAux (n + 1) n

/-- `String(i)` for an integer JS number. -/
def intToStr (i : Int) : Str :=
  if i < 0 then '-' :: natDigits (-i).toNat else natDigits i.toNat

/-- `String(x)` for the JS numbers in this model (`String(NaN) = "NaN"`). -/
def jnumToStr : JNum → Str
  | .num n => intToStr n
  | .nan => str "NaN"

def digitVal (ch : Char) : Option Nat :=
  if 48 ≤ ch.toNat ∧ ch.toNat ≤ 57 then some (ch.toNat - 48) else none

def parseNatAux : Str → Nat → Option Nat
  | [], acc => some acc
  | ch :: rest, acc =>
    match digitVal ch with
    | some d => parseNatAux rest (acc * 10 + d)
    | none => none

def parseNat (s : Str) : Option Nat :=
  if s = [] then none else parseNatAux s 0

/-- Model of JavaScript `Number(string)` restricted to the forms this program
produces for amounts: an optional leading minus followed by decimal digits
parses to that integer; any other nonempty string is NaN.  (Amounts are
integer cents throughout, so fractional/exponent forms are outside the
model; the empty string never reaches this function because the caller
short-circuits it through `|| 0`.) -/
def jsNumber (s : Str) : JNum :=
  match s with
  | [] => JNum.nan
  | ch :: rest =>
    if ch = '-' then
      match parseNat rest with
      | some n => JNum.num (-(n : Int))
      | none => JNum.nan
    else
      match parseNat (ch :: rest) with
      | some n => JNum.num (n : Int)
      | none => JNum.nan

/-- `(t.note || "").replace(/,/g, ";")`. -/
def replaceCommas (s : Str) : Str :=
  s.map (fun ch => if ch = ',' then ';' else ch)

def csvHeader : Str :=
  str "id,type,date,amountCents,accountFromId,accountToId,categoryId,paymentMethod,note"

/-- One row of `buildCSV` (App.tsx lines 204-216). -/
def txRow (t : Tx) : Str :=
  intercalateChar ','
    [t.id, t.type, t.date, jnumToStr t.amountCents,
     t.accountFromId.getD [], t.accountToId.getD [], t.categoryId.getD [],
     t.paymentMethod.getD [], replaceCommas (t.note.getD [])]

def buildCSV (txs : List Tx) : Str :=
  intercalateChar '\n' (csvHeader :: txs.map txRow)

/-- `x || null` on a string field: empty (or missing) becomes `null`. -/
def toOpt (s : Str) : Option Str := if s = [] then none else some s

/-- One row of `parseCSV` (App.tsx lines 223-238).  The ambient id generator
(`crypto.randomUUID`), current-date source (`todayStr`) and clock
(`Date.now`) are injected; the generator is indexed by the row number. -/
def parseRow (gen : Nat → Str) (today : Str) (now : Int) (i : Nat) (line : Str) : Tx :=
  let fs := splitOnChar ',' line
  { id := if fs.getD 0 [] = [] then gen i else fs.getD 0 [],
    type := if fs.getD 1 [] = [] then strGASTO else fs.getD 1 [],
    date := if fs.getD 2 [] = [] then today else fs.getD 2 [],
    amountCents := if fs.getD 3 [] = [] then JNum.num 0 else jsNumber (fs.getD 3 []),
    accountFromId := toOpt (fs.getD 4 []),
    accountToId := toOpt (fs.getD 5 []),
    categoryId := toOpt (fs.getD 6 []),
    paymentMethod := toOpt (fs.getD 7 []),
    note := toOpt (fs.getD 8 []),
    createdAt := now,
    updatedAt := now }

def parseCSV (gen : Nat → Str) (today : Str) (now : Int) (text : Str) : List Tx :=
  let clean := text.filter (fun ch => !decide (ch = '\r'))
  let lines := (splitOnChar '\n' clean).filter (fun l => !decide (l = []))
  if lines.length ≤ 1 then []
  else (lines.drop 1).enum.map (fun p => parseRow gen today now p.1 p.2)

/-- The tuple of transaction fields the round-trip property talks about. -/
structure TxKey where
  type : Str
  date : Str
  amountCents : JNum
  accountFromId : Option Str
  accountToId : Option Str
  categoryId : Option Str
  paymentMethod : Option Str
deriving DecidableEq, Repr

def txTuple (t : Tx) : TxKey :=
  ⟨t.type, t.date, t.amountCents, t.accountFromId, t.accountToId, t.categoryId,
    t.paymentMethod⟩

/-- A string that survives the unquoted one-line format: free of the column
and row delimiters. -/
abbrev csvSafe (s : Str) : Prop := ¬(',' ∈ s) ∧ ¬('\n' ∈ s) ∧ ¬('\r' ∈ s)

abbrev optWF (o : Option Str) : Prop :=
  match o with
  | none => True
  | some s => csvSafe s ∧ s ≠ []

/-- Transactions on which the tabular format is lossless for the tuple:
delimiter-free fields, nonempty type and date, optional fields never the
empty string, and a note without line breaks. -/
abbrev txWF (t : Tx) : Prop :=
  csvSafe t.id ∧ csvSafe t.type ∧ t.type ≠ [] ∧ csvSafe t.date ∧ t.date ≠ [] ∧
  optWF t.accountFromId ∧ optWF t.accountToId ∧ optWF t.categoryId ∧
  optWF t.paymentMethod ∧ ¬('\n' ∈ t.note.getD []) ∧ ¬('\r' ∈ t.note.getD [])

instance instDecidableOptWF (o : Option Str) : Decidable (optWF o) := by
  cases o with
  | none => exact isTrue trivial
  | some s => exact inferInstanceAs (Decidable (csvSafe s ∧ ¬(s = [])))

def genW : Nat → Str := fun _ => str "generated-id"

def todayW : Str := str "2024-06-01"

def ceTx6 : Tx :=
  ⟨str "x1", strGASTO, str "2024-01-02", JNum.num 500, some [], none, none, none,
    none, 0, 0⟩

def ceText7 : Str :=
  str "id,type,date,amountCents,accountFromId,accountToId,categoryId,paymentMethod,note\nr1,GASTO,2024-01-01,abc,,,,,"

def ceText7good : Str :=
  str "id,type,date,amountCents,accountFromId,accountToId,categoryId,paymentMethod,note\n,GASTO,2024-01-01,,,,,,"

-- === Month aggregation (src/src/App.tsx lines 421-430) ===
/-- `(x || 0)` on a possibly-undefined JS number. -/
def jOr0get (o : Option JNum) : JNum :=
  match o with
  | some v => v.or0
  | none => JNum.num 0

/-- Loop body of `gastosPorMes`: only `GASTO` rows accumulate, keyed by the
month key of the row's date (`monthKey` is injected, since its JS `Date`
semantics are ambient). -/
def gastoStep (mk : Str → Str) (m : List (Str × JNum)) (t : Tx) : List (Str × JNum) :=
  if t.type = strGASTO then
    setKey m (mk t.date) ((jOr0get (getKey m (mk t.date))).add t.amountCents)
  else m

def gastoMap (mk : Str → Str) (txs : List Tx) : List (Str × JNum) :=
  txs.foldl (gastoStep mk) []

/-- JS default `sort()` string order: code-unit lexicographic. -/
def strLe : Str → Str → Bool
  | [], _ => true
  | _ :: _, [] => false
  | a :: as, b :: bs =>
    if a.toNat < b.toNat then true
    else if b.toNat < a.toNat then false
    else strLe as bs

/-- `Object.keys(map).sort().slice(-6)` then the final `map`
(App.tsx lines 428-429): over the whole `txs` list, not the month-filtered
subset. -/
def gastosPorMes (mk : Str → Str) (txs : List Tx) : List (Str × JNum) :=
  let m := gastoMap mk txs
  let keys := List.insertionSort (fun a b : Str => strLe a b = true) (m.map (fun p => p.1))
  let keys6 := keys.drop (keys.length - 6)
  keys6.map (fun k => (k, (getKey m k).getD (JNum.num 0)))

/-- Specification-side per-month total: the `GASTO` transactions with that
month key, folded with the same accumulation the code performs. -/
def monthTotal (mk : Str → Str) (txs : List Tx) (k : Str) : JNum :=
  (txs.filter (fun t => decide (t.type = strGASTO) && decide (mk t.date = k))).foldl
    (fun v t => (v.or0).add t.amountCents) (JNum.num 0)

def applyGroup (l : List Tx) (o : Option JNum) : Option JNum :=
  l.foldl (fun acc t => some ((jOr0get acc).add t.amountCents)) o

def mkGasto (d : String) : Tx :=
  ⟨str d, strGASTO, str d, JNum.num 100, some (str "w"), none, none, none, none, 0, 0⟩

def eightMonthTxs : List Tx :=
  [mkGasto "2024-01-15", mkGasto "2024-02-15", mkGasto "2024-03-15",
   mkGasto "2024-04-15", mkGasto "2024-05-15", mkGasto "2024-06-15",
   mkGasto "2024-07-15", mkGasto "2024-08-15"]

-- === Association-list lemmas ===
theorem getKey_cons {α : Type} (k' : Str) (v' : α) (rest : List (Str × α)) (k : Str) :
    getKey ((k', v') :: rest) k = if k' = k then some v' else getKey rest k := by
  by_cases h : k' = k <;> simp [getKey, List.find?_cons, h]

theorem setKey_cons {α : Type} (k' : Str) (v' : α) (rest : List (Str × α)) (k : Str) (v : α) :
    setKey ((k', v') :: rest) k v =
      if k' = k then (k, v) :: rest else (k', v') :: setKey rest k v := rfl

theorem getKey_setKey_self {α : Type} (m : List (Str × α)) (k : Str) (v : α) :
    getKey (setKey m k v) k = some v := by
  induction m with
  | nil => simp [setKey, getKey, List.find?_cons]
  | cons p rest ih =>
    obtain ⟨k', v'⟩ := p
    rw [setKey_cons]
    by_cases h : k' = k
    · rw [if_pos h, getKey_cons, if_pos rfl]
    · rw [if_neg h, getKey_cons, if_neg h]
      exact ih

theorem getKey_setKey_ne {α : Type} (m : List (Str × α)) (k k' : Str) (v : α) (h : k' ≠ k) :
    getKey (setKey m k v) k' = getKey m k' := by
  induction m with
  | nil =>
    show getKey [(k, v)] k' = getKey [] k'
    rw [getKey_cons, if_neg (Ne.symm h)]
  | cons p rest ih =>
    obtain ⟨k₀, v₀⟩ := p
    rw [setKey_cons]
    by_cases h₀ : k₀ = k
    · rw [if_pos h₀, getKey_cons, getKey_cons, if_neg (Ne.symm h), h₀,
        if_neg (fun hc => h (hc.symm))]
    · rw [if_neg h₀, getKey_cons, getKey_cons]
      by_cases h₁ : k₀ = k'
      · rw [if_pos h₁, if_pos h₁]
      · rw [if_neg h₁, if_neg h₁]
        exact ih

theorem isSome_getKey_setKey {α : Type} (m : List (Str × α)) (k k' : Str) (v : α) :
    (getKey (setKey m k v) k').isSome = (decide (k' = k) || (getKey m k').isSome) := by
  by_cases h : k' = k
  · subst h; simp [getKey_setKey_self]
  · simp [getKey_setKey_ne m k k' v h, h]

theorem keys_setKey_of_isSome {α : Type} (m : List (Str × α)) (k : Str) (v : α)
    (h : (getKey m k).isSome = true) :
    (setKey m k v).map Prod.fst = m.map Prod.fst := by
  induction m with
  | nil => simp [getKey] at h
  | cons p rest ih =>
    obtain ⟨k', v'⟩ := p
    rw [setKey_cons]
    by_cases hk : k' = k
    · rw [if_pos hk, List.map_cons, List.map_cons, hk]
    · rw [getKey_cons, if_neg hk] at h
      rw [if_neg hk, List.map_cons, List.map_cons, ih h]

theorem mem_keys_iff_isSome {α : Type} (m : List (Str × α)) (k : Str) :
    k ∈ m.map Prod.fst ↔ (getKey m k).isSome = true := by
  induction m with
  | nil => simp [getKey]
  | cons p rest ih =>
    obtain ⟨k', v'⟩ := p
    rw [getKey_cons]
    by_cases h : k' = k
    · rw [if_pos h, List.map_cons, h, List.mem_cons]
      exact iff_of_true (Or.inl rfl) rfl
    · rw [if_neg h, List.map_cons, List.mem_cons]
      constructor
      · intro hc
        rcases hc with hc | hc
        · exact absurd hc.symm h
        · exact ih.mp hc
      · intro hc
        exact Or.inr (ih.mpr hc)

theorem keys_setKey_of_none {α : Type} (m : List (Str × α)) (k : Str) (v : α)
    (h : (getKey m k).isSome = false) :
    (setKey m k v).map Prod.fst = m.map Prod.fst ++ [k] := by
  induction m with
  | nil => simp [setKey]
  | cons p rest ih =>
    obtain ⟨k', v'⟩ := p
    rw [getKey_cons] at h
    by_cases hk : k' = k
    · rw [if_pos hk] at h
      simp at h
    · rw [if_neg hk] at h
      rw [setKey_cons, if_neg hk, List.map_cons, List.map_cons, ih h, List.cons_append]

theorem nodup_keys_setKey {α : Type} (m : List (Str × α)) (k : Str) (v : α)
    (h : (m.map Prod.fst).Nodup) : ((setKey m k v).map Prod.fst).Nodup := by
  by_cases hs : (getKey m k).isSome = true
  · rw [keys_setKey_of_isSome m k v hs]; exact h
  · rw [keys_setKey_of_none m k v (by simpa using hs)]
    rw [List.nodup_append]
    refine ⟨h, List.nodup_singleton k, ?_⟩
    intro x hx hx'
    rw [List.mem_singleton] at hx'
    subst hx'
    exact hs ((mem_keys_iff_isSome m x).mp hx)

theorem map_addVal_eq_self (m : List (Str × Int)) (d : Str → Int) (h : ∀ k, d k = 0) :
    m.map (fun p => (p.1, p.2 + d p.1)) = m := by
  have h2 : m.map (fun p => (p.1, p.2 + d p.1)) = m.map id :=
    List.map_congr_left (fun p _ => by simp [h p.1])
  rw [h2, List.map_id]

theorem keys_map_addVal (m : List (Str × Int)) (d : Str → Int) :
    (m.map (fun p => (p.1, p.2 + d p.1))).map Prod.fst = m.map Prod.fst := by
  rw [List.map_map]
  exact List.map_congr_left (fun p _ => rfl)

theorem getKey_map_addVal (m : List (Str × Int)) (d : Str → Int) (k : Str) :
    getKey (m.map (fun p => (p.1, p.2 + d p.1))) k = (getKey m k).map (fun v => v + d k) := by
  induction m with
  | nil => simp [getKey]
  | cons p rest ih =>
    obtain ⟨k', v'⟩ := p
    simp only [List.map_cons]
    rw [getKey_cons, getKey_cons]
    by_cases h : k' = k
    · subst h; simp
    · rw [if_neg h, if_neg h]; exact ih

theorem setKey_addVal (m : List (Str × Int)) (k : Str) (δ : Int)
    (hnd : (m.map Prod.fst).Nodup) (hk : (getKey m k).isSome = true) :
    setKey m k ((getKey m k).getD 0 + δ) =
      m.map (fun p => (p.1, p.2 + if p.1 = k then δ else 0)) := by
  induction m with
  | nil => simp [getKey] at hk
  | cons p rest ih =>
    obtain ⟨k', v'⟩ := p
    rw [List.map_cons, List.nodup_cons] at hnd
    by_cases h : k' = k
    · subst h
      rw [getKey_cons, if_pos rfl, setKey_cons, if_pos rfl, Option.getD_some, List.map_cons]
      have hrest : rest.map (fun p => (p.1, p.2 + if p.1 = k' then δ else 0)) = rest := by
        have h3 : rest.map (fun p => (p.1, p.2 + if p.1 = k' then δ else 0)) = rest.map id := by
          apply List.map_congr_left
          intro q hq
          have hne : q.1 ≠ k' := by
            intro hc
            have hmem : k' ∈ List.map Prod.fst rest := by
              rw [← hc]
              exact List.mem_map_of_mem Prod.fst hq
            exact hnd.1 hmem
          simp [hne]
        rw [h3, List.map_id]
      rw [hrest]
      simp
    · rw [getKey_cons, if_neg h] at hk
      rw [setKey_cons, if_neg h, getKey_cons, if_neg h, List.map_cons, ih hnd.2 hk]
      simp [h]

theorem setKey_subVal (m : List (Str × Int)) (k : Str) (δ : Int)
    (hnd : (m.map Prod.fst).Nodup) (hk : (getKey m k).isSome = true) :
    setKey m k ((getKey m k).getD 0 - δ) =
      m.map (fun p => (p.1, p.2 + if p.1 = k then -δ else 0)) := by
  rw [sub_eq_add_neg]
  exact setKey_addVal m k (-δ) hnd hk

theorem findAcc_mem (accounts : List Account) (o : Option Str) (a : Account)
    (h : findAcc accounts o = some a) : a ∈ accounts := by
  cases o with
  | none => exact absurd h (by simp [findAcc])
  | some x => exact List.mem_of_find?_eq_some h

theorem isCashId_of_mem (accounts : List Account) (a : Account)
    (ha : a ∈ accounts) (ht : a.type = AccountType.CASH) :
    isCashId accounts a.id = true := by
  rw [isCashId, List.any_eq_true]
  exact ⟨a, ha, by simp [ht]⟩

theorem isCreditId_of_mem (accounts : List Account) (a : Account)
    (ha : a ∈ accounts) (ht : a.type = AccountType.CREDIT) :
    isCreditId accounts a.id = true := by
  rw [isCreditId, List.any_eq_true]
  exact ⟨a, ha, by simp [ht]⟩

theorem map_addZero (m : List (Str × Int)) : m.map (fun p => (p.1, p.2 + 0)) = m :=
  map_addVal_eq_self m (fun _ => 0) (fun _ => rfl)

theorem setKey_addVal_two (m : List (Str × Int)) (k₁ k₂ : Str) (δ₁ δ₂ : Int)
    (hnd : (m.map Prod.fst).Nodup) (h1 : (getKey m k₁).isSome = true)
    (h2 : (getKey m k₂).isSome = true) (hne : k₁ ≠ k₂) :
    setKey (setKey m k₁ ((getKey m k₁).getD 0 - δ₁)) k₂
        ((getKey (setKey m k₁ ((getKey m k₁).getD 0 - δ₁)) k₂).getD 0 + δ₂) =
      m.map (fun p =>
        (p.1, p.2 + ((if p.1 = k₁ then -δ₁ else 0) + (if p.1 = k₂ then δ₂ else 0)))) := by
  have hnd1 : ((setKey m k₁ ((getKey m k₁).getD 0 - δ₁)).map Prod.fst).Nodup :=
    nodup_keys_setKey _ _ _ hnd
  have hs1 : (getKey (setKey m k₁ ((getKey m k₁).getD 0 - δ₁)) k₂).isSome = true := by
    rw [getKey_setKey_ne _ _ _ _ (Ne.symm hne)]
    exact h2
  rw [setKey_addVal _ k₂ δ₂ hnd1 hs1, setKey_subVal m k₁ δ₁ hnd h1, List.map_map]
  apply List.map_congr_left
  intro p _
  simp [add_assoc]

/-- Master characterization: on reachable states, one loop iteration adds
`efDelta`/`debtDelta` pointwise to the two records. -/
theorem applyTx_eq (accounts : List Account) (s : BalState) (t : Tx) (hInv : Inv accounts s) :
    applyTx accounts s t =
      { ef := s.ef.map (fun p => (p.1, p.2 + efDelta accounts t p.1)),
        debt := s.debt.map (fun p => (p.1, p.2 + debtDelta accounts t p.1)) } := by
  obtain ⟨hef, hdebt, hnde, hndd⟩ := hInv
  by_cases h0 : amtOf t = 0
  · simp only [applyTx, efDelta, debtDelta, if_pos h0]
    rw [map_addZero, map_addZero]
  · by_cases hty1 : t.type = strINGRESO
    · cases hto : t.accountToId with
      | none =>
        simp only [applyTx, efDelta, debtDelta, if_neg h0, if_pos hty1, hto]
        rw [map_addZero, map_addZero]
      | some toId =>
        have hc := hef toId
        by_cases hcond : toId ≠ [] ∧ isCashId accounts toId = true
        · simp only [applyTx, efDelta, debtDelta, if_neg h0, if_pos hty1, hto, hc,
            if_pos hcond, BalState.mk.injEq]
          refine ⟨?_, (map_addZero s.debt).symm⟩
          have hsome : (getKey s.ef toId).isSome = true := by rw [hc]; exact hcond.2
          exact setKey_addVal s.ef toId (amtOf t) hnde hsome
        · simp only [applyTx, efDelta, debtDelta, if_neg h0, if_pos hty1, hto, hc,
            if_neg hcond]
          rw [map_addZero, map_addZero]
    · by_cases hty2 : t.type = strGASTO
      · cases hfind : findAcc accounts t.accountFromId with
        | none =>
          simp only [applyTx, efDelta, debtDelta, if_neg h0, if_neg hty1, if_pos hty2, hfind]
          rw [map_addZero, map_addZero]
        | some fromA =>
          have hmem := findAcc_mem accounts t.accountFromId fromA hfind
          by_cases hT : fromA.type = AccountType.CREDIT
          · simp only [applyTx, efDelta, debtDelta, if_neg h0, if_neg hty1, if_pos hty2,
              hfind, if_pos hT, BalState.mk.injEq]
            refine ⟨(map_addZero s.ef).symm, ?_⟩
            have hsome : (getKey s.debt fromA.id).isSome = true := by
              rw [hdebt fromA.id]
              exact isCreditId_of_mem accounts fromA hmem hT
            exact setKey_addVal s.debt fromA.id (amtOf t) hndd hsome
          · have hCASH : fromA.type = AccountType.CASH := by
              cases hh : fromA.type
              · rfl
              · exact absurd hh hT
            simp only [applyTx, efDelta, debtDelta, if_neg h0, if_neg hty1, if_pos hty2,
              hfind, if_neg hT, BalState.mk.injEq]
            refine ⟨?_, (map_addZero s.debt).symm⟩
            have hsome : (getKey s.ef fromA.id).isSome = true := by
              rw [hef fromA.id]
              exact isCashId_of_mem accounts fromA hmem hCASH
            exact setKey_subVal s.ef fromA.id (amtOf t) hnde hsome
      · by_cases hty3 : t.type = strTRANSFERENCIA
        · cases hfind : findAcc accounts t.accountFromId with
          | none =>
            cases hfind2 : findAcc accounts t.accountToId with
            | none =>
              simp only [applyTx, efDelta, debtDelta, if_neg h0, if_neg hty1, if_neg hty2,
                if_pos hty3, hfind, hfind2]
              rw [map_addZero, map_addZero]
            | some toA =>
              simp only [applyTx, efDelta, debtDelta, if_neg h0, if_neg hty1, if_neg hty2,
                if_pos hty3, hfind, hfind2]
              rw [map_addZero, map_addZero]
          | some fromA =>
            cases hfind2 : findAcc accounts t.accountToId with
            | none =>
              simp only [applyTx, efDelta, debtDelta, if_neg h0, if_neg hty1, if_neg hty2,
                if_pos hty3, hfind, hfind2]
              rw [map_addZero, map_addZero]
            | some toA =>
              have hmemF := findAcc_mem accounts t.accountFromId fromA hfind
              have hmemT := findAcc_mem accounts t.accountToId toA hfind2
              by_cases hid : fromA.id = toA.id
              · simp only [applyTx, efDelta, debtDelta, if_neg h0, if_neg hty1, if_neg hty2,
                  if_pos hty3, hfind, hfind2, if_pos hid]
                rw [map_addZero, map_addZero]
              · by_cases hTo : toA.type = AccountType.CREDIT
                · have hsomeD : (getKey s.debt toA.id).isSome = true := by
                    rw [hdebt toA.id]
                    exact isCreditId_of_mem accounts toA hmemT hTo
                  by_cases hFrom : fromA.type = AccountType.CASH
                  · simp only [applyTx, efDelta, debtDelta, if_neg h0, if_neg hty1, if_neg hty2,
                      if_pos hty3, hfind, hfind2, if_neg hid, if_pos hTo, if_pos hFrom,
                      BalState.mk.injEq]
                    have hsomeE : (getKey s.ef fromA.id).isSome = true := by
                      rw [hef fromA.id]
                      exact isCashId_of_mem accounts fromA hmemF hFrom
                    exact ⟨setKey_subVal s.ef fromA.id (amtOf t) hnde hsomeE,
                      setKey_subVal s.debt toA.id (amtOf t) hndd hsomeD⟩
                  · simp only [applyTx, efDelta, debtDelta, if_neg h0, if_neg hty1, if_neg hty2,
                      if_pos hty3, hfind, hfind2, if_neg hid, if_pos hTo, if_neg hFrom,
                      BalState.mk.injEq]
                    exact ⟨(map_addZero s.ef).symm,
                      setKey_subVal s.debt toA.id (amtOf t) hndd hsomeD⟩
                · by_cases hCC : fromA.type = AccountType.CASH ∧ toA.type = AccountType.CASH
                  · simp only [applyTx, efDelta, debtDelta, if_neg h0, if_neg hty1, if_neg hty2,
                      if_pos hty3, hfind, hfind2, if_neg hid, if_neg hTo, if_pos hCC,
                      BalState.mk.injEq]
                    have hsome1 : (getKey s.ef fromA.id).isSome = true := by
                      rw [hef fromA.id]
                      exact isCashId_of_mem accounts fromA hmemF hCC.1
                    have hsome2 : (getKey s.ef toA.id).isSome = true := by
                      rw [hef toA.id]
                      exact isCashId_of_mem accounts toA hmemT hCC.2
                    exact ⟨setKey_addVal_two s.ef fromA.id toA.id (amtOf t) (amtOf t)
                        hnde hsome1 hsome2 hid,
                      (map_addZero s.debt).symm⟩
                  · simp only [applyTx, efDelta, debtDelta, if_neg h0, if_neg hty1, if_neg hty2,
                      if_pos hty3, hfind, hfind2, if_neg hid, if_neg hTo, if_neg hCC]
                    rw [map_addZero, map_addZero]
        · simp only [applyTx, efDelta, debtDelta, if_neg h0, if_neg hty1, if_neg hty2,
            if_neg hty3]
          rw [map_addZero, map_addZero]

theorem Inv_of_map_addVal (accounts : List Account) (s : BalState) (d₁ d₂ : Str → Int)
    (h : Inv accounts s) :
    Inv accounts { ef := s.ef.map (fun p => (p.1, p.2 + d₁ p.1)),
                   debt := s.debt.map (fun p => (p.1, p.2 + d₂ p.1)) } := by
  obtain ⟨hef, hdebt, hnde, hndd⟩ := h
  refine ⟨fun k => ?_, fun k => ?_, ?_, ?_⟩
  · show (getKey (s.ef.map _) k).isSome = _
    rw [getKey_map_addVal, Option.isSome_map']
    exact hef k
  · show (getKey (s.debt.map _) k).isSome = _
    rw [getKey_map_addVal, Option.isSome_map']
    exact hdebt k
  · show ((s.ef.map _).map Prod.fst).Nodup
    rw [keys_map_addVal]
    exact hnde
  · show ((s.debt.map _).map Prod.fst).Nodup
    rw [keys_map_addVal]
    exact hndd

theorem Inv_applyTx (accounts : List Account) (s : BalState) (t : Tx)
    (h : Inv accounts s) : Inv accounts (applyTx accounts s t) := by
  rw [applyTx_eq accounts s t h]
  exact Inv_of_map_addVal accounts s _ _ h

theorem efSum_append (accounts : List Account) (ts : List Tx) (t : Tx) (k : Str) :
    efSum accounts (ts ++ [t]) k = efSum accounts ts k + efDelta accounts t k := by
  simp [efSum, List.sum_append]

theorem debtSum_append (accounts : List Account) (ts : List Tx) (t : Tx) (k : Str) :
    debtSum accounts (ts ++ [t]) k = debtSum accounts ts k + debtDelta accounts t k := by
  simp [debtSum, List.sum_append]

/-- Folding the whole transaction list adds the per-key delta sums. -/
theorem foldl_applyTx_eq (accounts : List Account) (txs : List Tx) :
    ∀ s, Inv accounts s →
      txs.foldl (applyTx accounts) s =
        { ef := s.ef.map (fun p => (p.1, p.2 + efSum accounts txs p.1)),
          debt := s.debt.map (fun p => (p.1, p.2 + debtSum accounts txs p.1)) } := by
  induction txs with
  | nil =>
    intro s _
    simp only [List.foldl_nil, efSum, debtSum, List.map_nil, List.sum_nil]
    rw [map_addZero, map_addZero]
  | cons t ts ih =>
    intro s h
    rw [List.foldl_cons, ih (applyTx accounts s t) (Inv_applyTx accounts s t h),
      applyTx_eq accounts s t h]
    simp only [BalState.mk.injEq]
    constructor
    · show (s.ef.map _).map _ = _
      rw [List.map_map]
      apply List.map_congr_left
      intro p _
      simp only [Function.comp, efSum, List.map_cons, List.sum_cons]
      exact congrArg (fun z => (p.1, z)) (add_assoc p.2 _ _)
    · show (s.debt.map _).map _ = _
      rw [List.map_map]
      apply List.map_congr_left
      intro p _
      simp only [Function.comp, debtSum, List.map_cons, List.sum_cons]
      exact congrArg (fun z => (p.1, z)) (add_assoc p.2 _ _)

theorem isSome_getKey_foldl_initStep_ef (accounts : List Account) :
    ∀ (s : BalState) (k : Str),
      (getKey (accounts.foldl initStep s).ef k).isSome
        = ((getKey s.ef k).isSome || isCashId accounts k) := by
  induction accounts with
  | nil => intro s k; simp [isCashId]
  | cons a as ih =>
    intro s k
    rw [List.foldl_cons, ih]
    simp only [isCashId, List.any_cons]
    cases hT : a.type
    · by_cases hk : k = a.id
      · simp [initStep, hT, isSome_getKey_setKey, hk]
      · have hk2 : a.id ≠ k := fun hc => hk hc.symm
        simp [initStep, hT, isSome_getKey_setKey, hk, hk2]
    · simp [initStep, hT]

theorem isSome_getKey_foldl_initStep_debt (accounts : List Account) :
    ∀ (s : BalState) (k : Str),
      (getKey (accounts.foldl initStep s).debt k).isSome
        = ((getKey s.debt k).isSome || isCreditId accounts k) := by
  induction accounts with
  | nil => intro s k; simp [isCreditId]
  | cons a as ih =>
    intro s k
    rw [List.foldl_cons, ih]
    simp only [isCreditId, List.any_cons]
    cases hT : a.type
    · simp [initStep, hT]
    · by_cases hk : k = a.id
      · simp [initStep, hT, isSome_getKey_setKey, hk]
      · have hk2 : a.id ≠ k := fun hc => hk hc.symm
        simp [initStep, hT, isSome_getKey_setKey, hk, hk2]

theorem nodup_keys_foldl_initStep (accounts : List Account) :
    ∀ (s : BalState), (s.ef.map Prod.fst).Nodup → (s.debt.map Prod.fst).Nodup →
      ((accounts.foldl initStep s).ef.map Prod.fst).Nodup ∧
      ((accounts.foldl initStep s).debt.map Prod.fst).Nodup := by
  induction accounts with
  | nil => intro s h1 h2; exact ⟨h1, h2⟩
  | cons a as ih =>
    intro s h1 h2
    rw [List.foldl_cons]
    cases hT : a.type
    · exact ih _ (by simpa [initStep, hT] using nodup_keys_setKey s.ef a.id _ h1)
        (by simpa [initStep, hT] using h2)
    · exact ih _ (by simpa [initStep, hT] using h1)
        (by simpa [initStep, hT] using nodup_keys_setKey s.debt a.id _ h2)

theorem Inv_initState (accounts : List Account) : Inv accounts (initState accounts) := by
  refine ⟨fun k => ?_, fun k => ?_, ?_, ?_⟩
  · rw [initState, isSome_getKey_foldl_initStep_ef]
    simp [getKey]
  · rw [initState, isSome_getKey_foldl_initStep_debt]
    simp [getKey]
  · exact (nodup_keys_foldl_initStep accounts ⟨[], []⟩ (by simp) (by simp)).1
  · exact (nodup_keys_foldl_initStep accounts ⟨[], []⟩ (by simp) (by simp)).2

theorem Inv_foldTxs (accounts : List Account) (txs : List Tx) :
    Inv accounts (foldTxs accounts txs) := by
  rw [foldTxs, foldl_applyTx_eq accounts txs _ (Inv_initState accounts)]
  exact Inv_of_map_addVal accounts _ _ _ (Inv_initState accounts)

theorem getKey_foldTxs_ef (accounts : List Account) (txs : List Tx) (k : Str) :
    getKey (foldTxs accounts txs).ef k
      = (getKey (initState accounts).ef k).map (fun v => v + efSum accounts txs k) := by
  rw [foldTxs, foldl_applyTx_eq accounts txs _ (Inv_initState accounts)]
  exact getKey_map_addVal _ _ k

theorem getKey_foldTxs_debt (accounts : List Account) (txs : List Tx) (k : Str) :
    getKey (foldTxs accounts txs).debt k
      = (getKey (initState accounts).debt k).map (fun v => v + debtSum accounts txs k) := by
  rw [foldTxs, foldl_applyTx_eq accounts txs _ (Inv_initState accounts)]
  exact getKey_map_addVal _ _ k

theorem getKey_foldl_initStep_ef_untouched (accounts : List Account) :
    ∀ (s : BalState) (k : Str), (∀ b ∈ accounts, b.id ≠ k) →
      getKey (accounts.foldl initStep s).ef k = getKey s.ef k := by
  induction accounts with
  | nil => intro s k _; rfl
  | cons a as ih =>
    intro s k h
    rw [List.foldl_cons, ih _ k (fun b hb => h b (List.mem_cons.mpr (Or.inr hb)))]
    cases hT : a.type
    · simp only [initStep, hT]
      exact getKey_setKey_ne s.ef a.id k _ (fun hc => h a (List.mem_cons.mpr (Or.inl rfl)) hc.symm)
    · simp only [initStep, hT]

theorem getKey_foldl_initStep_debt_untouched (accounts : List Account) :
    ∀ (s : BalState) (k : Str), (∀ b ∈ accounts, b.id ≠ k) →
      getKey (accounts.foldl initStep s).debt k = getKey s.debt k := by
  induction accounts with
  | nil => intro s k _; rfl
  | cons a as ih =>
    intro s k h
    rw [List.foldl_cons, ih _ k (fun b hb => h b (List.mem_cons.mpr (Or.inr hb)))]
    cases hT : a.type
    · simp only [initStep, hT]
    · simp only [initStep, hT]
      exact getKey_setKey_ne s.debt a.id k _ (fun hc => h a (List.mem_cons.mpr (Or.inl rfl)) hc.symm)

theorem nodup_tail_ids (a : Account) (as : List Account)
    (hnd : ((a :: as).map Account.id).Nodup) :
    (∀ c ∈ as, c.id ≠ a.id) ∧ (as.map Account.id).Nodup := by
  rw [List.map_cons, List.nodup_cons] at hnd
  refine ⟨fun c hc hne => ?_, hnd.2⟩
  exact hnd.1 (hne ▸ List.mem_map_of_mem Account.id hc)

theorem getKey_initState_ef_of_mem (accounts : List Account) (a : Account)
    (hnd : (accounts.map Account.id).Nodup) (ha : a ∈ accounts)
    (hT : a.type = AccountType.CASH) :
    getKey (initState accounts).ef a.id = some (a.initialBalanceCents.getD 0) := by
  rw [initState]
  generalize (⟨[], []⟩ : BalState) = s₀
  induction accounts generalizing s₀ with
  | nil => cases ha
  | cons b bs ih =>
    rcases List.mem_cons.mp ha with hab | hmem
    · subst hab
      rw [List.foldl_cons,
        getKey_foldl_initStep_ef_untouched bs _ a.id (nodup_tail_ids a bs hnd).1]
      simp only [initStep, hT]
      exact getKey_setKey_self s₀.ef a.id _
    · rw [List.foldl_cons]
      exact ih (nodup_tail_ids b bs hnd).2 hmem _

theorem getKey_initState_debt_of_mem (accounts : List Account) (a : Account)
    (hnd : (accounts.map Account.id).Nodup) (ha : a ∈ accounts)
    (hT : a.type = AccountType.CREDIT) :
    getKey (initState accounts).debt a.id = some (a.initialDebtCents.getD 0) := by
  rw [initState]
  generalize (⟨[], []⟩ : BalState) = s₀
  induction accounts generalizing s₀ with
  | nil => cases ha
  | cons b bs ih =>
    rcases List.mem_cons.mp ha with hab | hmem
    · subst hab
      rw [List.foldl_cons,
        getKey_foldl_initStep_debt_untouched bs _ a.id (nodup_tail_ids a bs hnd).1]
      simp only [initStep, hT]
      exact getKey_setKey_self s₀.debt a.id _
    · rw [List.foldl_cons]
      exact ih (nodup_tail_ids b bs hnd).2 hmem _

theorem find?_self_of_nodup (accounts : List Account) (a : Account)
    (hnd : (accounts.map Account.id).Nodup) (ha : a ∈ accounts) :
    accounts.find? (fun b => decide (b.id = a.id)) = some a := by
  induction accounts with
  | nil => cases ha
  | cons b bs ih =>
    rcases List.mem_cons.mp ha with hab | hmem
    · subst hab
      rw [List.find?_cons]
      simp
    · have hne : b.id ≠ a.id := fun hc =>
        (nodup_tail_ids b bs hnd).1 a hmem hc.symm
      rw [List.find?_cons]
      have : decide (b.id = a.id) = false := by simp [hne]
      rw [this]
      exact ih (nodup_tail_ids b bs hnd).2 hmem

theorem perAccountEntry_account (s : BalState) (a : Account) :
    (perAccountEntry s a).account = a := by
  cases hT : a.type <;> simp [perAccountEntry, hT]

theorem entryOf_computeBalances (accounts : List Account) (txs : List Tx) (a : Account)
    (hnd : (accounts.map Account.id).Nodup) (ha : a ∈ accounts) :
    entryOf (computeBalances accounts txs) a.id
      = some (perAccountEntry (foldTxs accounts txs) a) := by
  simp only [entryOf, computeBalances]
  rw [List.find?_map]
  have hpred : ((fun x : AccountBalance => decide (x.account.id = a.id)) ∘
      perAccountEntry (foldTxs accounts txs)) = (fun b => decide (b.id = a.id)) := by
    funext b
    simp [Function.comp, perAccountEntry_account]
  rw [hpred, find?_self_of_nodup accounts a hnd ha, Option.map_some']

theorem balanceOf_cash (accounts : List Account) (txs : List Tx) (a : Account)
    (hnd : (accounts.map Account.id).Nodup) (ha : a ∈ accounts)
    (hT : a.type = AccountType.CASH) :
    balanceOf (computeBalances accounts txs) a.id
      = a.initialBalanceCents.getD 0 + efSum accounts txs a.id := by
  rw [balanceOf, entryOf_computeBalances accounts txs a hnd ha, Option.map_some',
    Option.getD_some]
  simp only [perAccountEntry, hT]
  rw [getKey_foldTxs_ef, getKey_initState_ef_of_mem accounts a hnd ha hT,
    Option.map_some', Option.getD_some]

theorem balanceOf_credit (accounts : List Account) (txs : List Tx) (a : Account)
    (hnd : (accounts.map Account.id).Nodup) (ha : a ∈ accounts)
    (hT : a.type = AccountType.CREDIT) :
    balanceOf (computeBalances accounts txs) a.id
      = -(a.initialDebtCents.getD 0 + debtSum accounts txs a.id) := by
  rw [balanceOf, entryOf_computeBalances accounts txs a hnd ha, Option.map_some',
    Option.getD_some]
  simp only [perAccountEntry, hT]
  rw [getKey_foldTxs_debt, getKey_initState_debt_of_mem accounts a hnd ha hT,
    Option.map_some', Option.getD_some]

theorem creditAvailOf_credit (accounts : List Account) (txs : List Tx) (a : Account)
    (hnd : (accounts.map Account.id).Nodup) (ha : a ∈ accounts)
    (hT : a.type = AccountType.CREDIT) :
    creditAvailOf (computeBalances accounts txs) a.id
      = some (a.creditLimitCents.getD 0
          - (a.initialDebtCents.getD 0 + debtSum accounts txs a.id)) := by
  rw [creditAvailOf, entryOf_computeBalances accounts txs a hnd ha, Option.map_some',
    Option.getD_some]
  simp only [perAccountEntry, hT]
  rw [getKey_foldTxs_debt, getKey_initState_debt_of_mem accounts a hnd ha hT,
    Option.map_some', Option.getD_some]

theorem creditAvailOf_cash (accounts : List Account) (txs : List Tx) (a : Account)
    (hnd : (accounts.map Account.id).Nodup) (ha : a ∈ accounts)
    (hT : a.type = AccountType.CASH) :
    creditAvailOf (computeBalances accounts txs) a.id = none := by
  rw [creditAvailOf, entryOf_computeBalances accounts txs a hnd ha, Option.map_some',
    Option.getD_some]
  simp only [perAccountEntry, hT]

/-- Appending a transaction whose deltas vanish everywhere leaves the whole
result unchanged. -/
theorem computeBalances_append_inert (accounts : List Account) (txs : List Tx) (t : Tx)
    (hEf : ∀ k, efDelta accounts t k = 0) (hDebt : ∀ k, debtDelta accounts t k = 0) :
    computeBalances accounts (txs ++ [t]) = computeBalances accounts txs := by
  have hfold : foldTxs accounts (txs ++ [t]) = foldTxs accounts txs := by
    rw [foldTxs, List.foldl_append, List.foldl_cons, List.foldl_nil]
    rw [show List.foldl (applyTx accounts) (initState accounts) txs = foldTxs accounts txs
      from rfl]
    rw [applyTx_eq accounts _ t (Inv_foldTxs accounts txs)]
    rw [map_addVal_eq_self _ _ hEf, map_addVal_eq_self _ _ hDebt]
  simp only [computeBalances, hfold]

theorem findAcc_some_of_mem (accounts : List Account) (a : Account)
    (hnd : (accounts.map Account.id).Nodup) (ha : a ∈ accounts) :
    findAcc accounts (some a.id) = some a := by
  simp only [findAcc]
  exact find?_self_of_nodup accounts a hnd ha

theorem findAcc_eq_none (accounts : List Account) (o : Option Str)
    (h : ∀ a ∈ accounts, some a.id ≠ o) : findAcc accounts o = none := by
  cases o with
  | none => rfl
  | some x =>
    simp only [findAcc]
    rw [List.find?_eq_none]
    intro a ha
    simp only [decide_eq_true_eq]
    exact fun hc => h a ha (by rw [hc])

theorem isCashId_eq_false (accounts : List Account) (k : Str)
    (h : ∀ a ∈ accounts, a.id ≠ k) : isCashId accounts k = false := by
  rw [isCashId, List.any_eq_false]
  intro a ha
  simp [h a ha]

theorem efDelta_gasto_cash (accounts : List Account) (t : Tx) (src : Account)
    (hnd : (accounts.map Account.id).Nodup) (hsrc : src ∈ accounts)
    (hT : src.type = AccountType.CASH) (hty : t.type = strGASTO)
    (hfrom : t.accountFromId = some src.id) (k : Str) :
    efDelta accounts t k = if k = src.id then -(amtOf t) else 0 := by
  by_cases h0 : amtOf t = 0
  · simp [efDelta, h0]
  · have h1 : ¬(t.type = strINGRESO) := by rw [hty]; decide
    have hfind : findAcc accounts t.accountFromId = some src := by
      rw [hfrom]; exact findAcc_some_of_mem accounts src hnd hsrc
    have hnc : ¬(src.type = AccountType.CREDIT) := by rw [hT]; decide
    simp only [efDelta, if_neg h0, if_neg h1, if_pos hty, hfind, if_neg hnc]

theorem debtDelta_gasto_cash (accounts : List Account) (t : Tx) (src : Account)
    (hnd : (accounts.map Account.id).Nodup) (hsrc : src ∈ accounts)
    (hT : src.type = AccountType.CASH) (hty : t.type = strGASTO)
    (hfrom : t.accountFromId = some src.id) (k : Str) :
    debtDelta accounts t k = 0 := by
  by_cases h0 : amtOf t = 0
  · simp [debtDelta, h0]
  · have h1 : ¬(t.type = strINGRESO) := by rw [hty]; decide
    have hfind : findAcc accounts t.accountFromId = some src := by
      rw [hfrom]; exact findAcc_some_of_mem accounts src hnd hsrc
    have hnc : ¬(src.type = AccountType.CREDIT) := by rw [hT]; decide
    simp only [debtDelta, if_neg h0, if_neg h1, if_pos hty, hfind, if_neg hnc]

theorem efDelta_transfer_cash_cash (accounts : List Account) (t : Tx) (src dst : Account)
    (hnd : (accounts.map Account.id).Nodup) (hs : src ∈ accounts) (hd : dst ∈ accounts)
    (hsT : src.type = AccountType.CASH) (hdT : dst.type = AccountType.CASH)
    (hne : ¬(src.id = dst.id)) (hty : t.type = strTRANSFERENCIA)
    (hfrom : t.accountFromId = some src.id) (hto : t.accountToId = some dst.id) (k : Str) :
    efDelta accounts t k
      = (if k = src.id then -(amtOf t) else 0) + (if k = dst.id then amtOf t else 0) := by
  by_cases h0 : amtOf t = 0
  · simp [efDelta, h0]
  · have h1 : ¬(t.type = strINGRESO) := by rw [hty]; decide
    have h2 : ¬(t.type = strGASTO) := by rw [hty]; decide
    have hfindF : findAcc accounts t.accountFromId = some src := by
      rw [hfrom]; exact findAcc_some_of_mem accounts src hnd hs
    have hfindT : findAcc accounts t.accountToId = some dst := by
      rw [hto]; exact findAcc_some_of_mem accounts dst hnd hd
    have hnc : ¬(dst.type = AccountType.CREDIT) := by rw [hdT]; decide
    simp only [efDelta, if_neg h0, if_neg h1, if_neg h2, if_pos hty, hfindF, hfindT,
      if_neg hne, if_neg hnc, if_pos (And.intro hsT hdT)]

theorem debtDelta_transfer_cash_cash (accounts : List Account) (t : Tx) (src dst : Account)
    (hnd : (accounts.map Account.id).Nodup) (hs : src ∈ accounts) (hd : dst ∈ accounts)
    (hsT : src.type = AccountType.CASH) (hdT : dst.type = AccountType.CASH)
    (hne : ¬(src.id = dst.id)) (hty : t.type = strTRANSFERENCIA)
    (hfrom : t.accountFromId = some src.id) (hto : t.accountToId = some dst.id) (k : Str) :
    debtDelta accounts t k = 0 := by
  by_cases h0 : amtOf t = 0
  · simp [debtDelta, h0]
  · have h1 : ¬(t.type = strINGRESO) := by rw [hty]; decide
    have h2 : ¬(t.type = strGASTO) := by rw [hty]; decide
    have hfindF : findAcc accounts t.accountFromId = some src := by
      rw [hfrom]; exact findAcc_some_of_mem accounts src hnd hs
    have hfindT : findAcc accounts t.accountToId = some dst := by
      rw [hto]; exact findAcc_some_of_mem accounts dst hnd hd
    have hnc : ¬(dst.type = AccountType.CREDIT) := by rw [hdT]; decide
    simp only [debtDelta, if_neg h0, if_neg h1, if_neg h2, if_pos hty, hfindF, hfindT,
      if_neg hne, if_neg hnc]

theorem efDelta_transfer_credit_cash (accounts : List Account) (t : Tx) (src dst : Account)
    (hnd : (accounts.map Account.id).Nodup) (hs : src ∈ accounts) (hd : dst ∈ accounts)
    (hsT : src.type = AccountType.CREDIT) (hdT : dst.type = AccountType.CASH)
    (hne : ¬(src.id = dst.id)) (hty : t.type = strTRANSFERENCIA)
    (hfrom : t.accountFromId = some src.id) (hto : t.accountToId = some dst.id) (k : Str) :
    efDelta accounts t k = 0 := by
  by_cases h0 : amtOf t = 0
  · simp [efDelta, h0]
  · have h1 : ¬(t.type = strINGRESO) := by rw [hty]; decide
    have h2 : ¬(t.type = strGASTO) := by rw [hty]; decide
    have hfindF : findAcc accounts t.accountFromId = some src := by
      rw [hfrom]; exact findAcc_some_of_mem accounts src hnd hs
    have hfindT : findAcc accounts t.accountToId = some dst := by
      rw [hto]; exact findAcc_some_of_mem accounts dst hnd hd
    have hnc : ¬(dst.type = AccountType.CREDIT) := by rw [hdT]; decide
    have hcc : ¬(src.type = AccountType.CASH ∧ dst.type = AccountType.CASH) := by
      rw [hsT]; intro hcc; exact absurd hcc.1 (by decide)
    simp only [efDelta, if_neg h0, if_neg h1, if_neg h2, if_pos hty, hfindF, hfindT,
      if_neg hne, if_neg hnc, if_neg hcc]

theorem debtDelta_transfer_credit_cash (accounts : List Account) (t : Tx) (src dst : Account)
    (hnd : (accounts.map Account.id).Nodup) (hs : src ∈ accounts) (hd : dst ∈ accounts)
    (hsT : src.type = AccountType.CREDIT) (hdT : dst.type = AccountType.CASH)
    (hne : ¬(src.id = dst.id)) (hty : t.type = strTRANSFERENCIA)
    (hfrom : t.accountFromId = some src.id) (hto : t.accountToId = some dst.id) (k : Str) :
    debtDelta accounts t k = 0 := by
  by_cases h0 : amtOf t = 0
  · simp [debtDelta, h0]
  · have h1 : ¬(t.type = strINGRESO) := by rw [hty]; decide
    have h2 : ¬(t.type = strGASTO) := by rw [hty]; decide
    have hfindF : findAcc accounts t.accountFromId = some src := by
      rw [hfrom]; exact findAcc_some_of_mem accounts src hnd hs
    have hfindT : findAcc accounts t.accountToId = some dst := by
      rw [hto]; exact findAcc_some_of_mem accounts dst hnd hd
    have hnc : ¬(dst.type = AccountType.CREDIT) := by rw [hdT]; decide
    simp only [debtDelta, if_neg h0, if_neg h1, if_neg h2, if_pos hty, hfindF, hfindT,
      if_neg hne, if_neg hnc]

theorem gasto_ne_ingreso : ¬(strGASTO = strINGRESO) := by decide

theorem transf_ne_ingreso : ¬(strTRANSFERENCIA = strINGRESO) := by decide

theorem transf_ne_gasto : ¬(strTRANSFERENCIA = strGASTO) := by decide

theorem deltas_unknown (accounts : List Account) (t : Tx)
    (hunk : (t.type = strINGRESO ∧ ∀ a ∈ accounts, some a.id ≠ t.accountToId) ∨
            (t.type = strGASTO ∧ ∀ a ∈ accounts, some a.id ≠ t.accountFromId) ∨
            (t.type = strTRANSFERENCIA ∧
              ((∀ a ∈ accounts, some a.id ≠ t.accountFromId) ∨
               (∀ a ∈ accounts, some a.id ≠ t.accountToId)))) :
    (∀ k, efDelta accounts t k = 0) ∧ (∀ k, debtDelta accounts t k = 0) := by
  rcases hunk with ⟨hty, hto⟩ | ⟨hty, hfrom⟩ | ⟨hty, hun⟩
  · refine ⟨fun k => ?_, fun k => ?_⟩
    · by_cases h0 : amtOf t = 0
      · simp [efDelta, h0]
      · cases hcase : t.accountToId with
        | none => simp [efDelta, h0, hty, hcase]
        | some toId =>
          have hfalse : isCashId accounts toId = false := by
            apply isCashId_eq_false
            intro a ha hc
            exact hto a ha (by rw [hc, hcase])
          simp [efDelta, h0, hty, hcase, hfalse]
    · by_cases h0 : amtOf t = 0 <;> simp [debtDelta, h0, hty]
  · have hfind : findAcc accounts t.accountFromId = none := findAcc_eq_none _ _ hfrom
    refine ⟨fun k => ?_, fun k => ?_⟩
    · by_cases h0 : amtOf t = 0
      · simp [efDelta, h0]
      · simp [efDelta, h0, hty, gasto_ne_ingreso, hfind]
    · by_cases h0 : amtOf t = 0
      · simp [debtDelta, h0]
      · simp [debtDelta, h0, hty, gasto_ne_ingreso, hfind]
  · rcases hun with hfrom | hto
    · have hfind : findAcc accounts t.accountFromId = none := findAcc_eq_none _ _ hfrom
      refine ⟨fun k => ?_, fun k => ?_⟩
      · by_cases h0 : amtOf t = 0
        · simp [efDelta, h0]
        · simp [efDelta, h0, hty, transf_ne_ingreso, transf_ne_gasto, hfind]
      · by_cases h0 : amtOf t = 0
        · simp [debtDelta, h0]
        · simp [debtDelta, h0, hty, transf_ne_ingreso, transf_ne_gasto, hfind]
    · have hfind : findAcc accounts t.accountToId = none := findAcc_eq_none _ _ hto
      refine ⟨fun k => ?_, fun k => ?_⟩
      · by_cases h0 : amtOf t = 0
        · simp [efDelta, h0]
        · cases hf : findAcc accounts t.accountFromId <;>
            simp [efDelta, h0, hty, transf_ne_ingreso, transf_ne_gasto, hf, hfind]
      · by_cases h0 : amtOf t = 0
        · simp [debtDelta, h0]
        · cases hf : findAcc accounts t.accountFromId <;>
            simp [debtDelta, h0, hty, transf_ne_ingreso, transf_ne_gasto, hf, hfind]

theorem amtOf_num (t : Tx) (amt : Int) (h : t.amountCents = JNum.num amt) :
    amtOf t = amt := by
  rw [amtOf, h]

/-- C1: for every list of accounts and every list of transactions,
`computeBalances` yields the same result (every per-account `balanceCents`
and `creditAvailableCents`, and the liquidity total) for any permutation of
the transaction list. -/
theorem computeBalances_perm_invariant (accounts : List Account) (txs₁ txs₂ : List Tx)
    (h : txs₁.Perm txs₂) :
    computeBalances accounts txs₁ = computeBalances accounts txs₂ := by
  have hfold : foldTxs accounts txs₁ = foldTxs accounts txs₂ := by
    rw [foldTxs, foldTxs, foldl_applyTx_eq accounts txs₁ _ (Inv_initState accounts),
      foldl_applyTx_eq accounts txs₂ _ (Inv_initState accounts)]
    simp only [BalState.mk.injEq]
    constructor
    · apply List.map_congr_left
      intro p _
      have hsum : efSum accounts txs₁ p.1 = efSum accounts txs₂ p.1 :=
        (h.map (fun t => efDelta accounts t p.1)).sum_eq
      rw [hsum]
    · apply List.map_congr_left
      intro p _
      have hsum : debtSum accounts txs₁ p.1 = debtSum accounts txs₂ p.1 :=
        (h.map (fun t => debtDelta accounts t p.1)).sum_eq
      rw [hsum]
  simp only [computeBalances, hfold]

theorem computeBalances_perm_invariant_witness :
    ([wTxIncome, wTxExpense].Perm [wTxExpense, wTxIncome]) ∧
    computeBalances [wAcct] [wTxIncome, wTxExpense]
      = computeBalances [wAcct] [wTxExpense, wTxIncome] :=
  ⟨by decide, computeBalances_perm_invariant [wAcct] _ _ (by decide)⟩

/-- C3 counterexample: a Transfer between two Credit accounts is not a no-op:
it changes the destination account's reported balance (the code decrements
the destination's debt whenever the destination is a Credit account,
regardless of the source type). -/
theorem transfer_credit_credit_changes_balance :
    ¬ (balanceOf (computeBalances [ceCredit1, ceCredit2] [ceTxCC]) (str "c2")
        = balanceOf (computeBalances [ceCredit1, ceCredit2] []) (str "c2")) := by
  decide

/-- C3 (amended): a Transfer whose source is a Credit account and whose
destination is a Cash account (both present in the registry and distinct)
has no effect at all on the computed balances.  (The Credit-to-Credit case,
by contrast, decrements the destination's debt, as the counterexample
shows.) -/
theorem transfer_credit_to_cash_no_effect (accounts : List Account) (txs : List Tx)
    (t : Tx) (src dst : Account)
    (hnd : (accounts.map Account.id).Nodup)
    (hs : src ∈ accounts) (hd : dst ∈ accounts)
    (hsT : src.type = AccountType.CREDIT) (hdT : dst.type = AccountType.CASH)
    (hne : ¬(src.id = dst.id))
    (hty : t.type = strTRANSFERENCIA)
    (hfrom : t.accountFromId = some src.id) (hto : t.accountToId = some dst.id) :
    computeBalances accounts (txs ++ [t]) = computeBalances accounts txs :=
  computeBalances_append_inert accounts txs t
    (efDelta_transfer_credit_cash accounts t src dst hnd hs hd hsT hdT hne hty hfrom hto)
    (debtDelta_transfer_credit_cash accounts t src dst hnd hs hd hsT hdT hne hty hfrom hto)

theorem transfer_credit_to_cash_no_effect_witness :
    (([ceCredit1, ceCash3].map Account.id).Nodup) ∧
    computeBalances [ceCredit1, ceCash3] ([] ++ [ceTxCD])
      = computeBalances [ceCredit1, ceCash3] [] :=
  ⟨by decide,
    transfer_credit_to_cash_no_effect [ceCredit1, ceCash3] [] ceTxCD ceCredit1 ceCash3
      (by decide) (by decide) (by decide) rfl rfl (by decide) rfl rfl rfl⟩

/-- C4: a Transfer between two distinct Cash accounts present in the registry
subtracts the amount from the source balance, adds it to the destination
balance, and conserves the sum of the two balances. -/
theorem transfer_cash_cash_conservation (accounts : List Account) (txs : List Tx)
    (t : Tx) (src dst : Account) (amt : Int)
    (hnd : (accounts.map Account.id).Nodup)
    (hs : src ∈ accounts) (hd : dst ∈ accounts)
    (hsT : src.type = AccountType.CASH) (hdT : dst.type = AccountType.CASH)
    (hne : ¬(src.id = dst.id))
    (hty : t.type = strTRANSFERENCIA)
    (hfrom : t.accountFromId = some src.id) (hto : t.accountToId = some dst.id)
    (hamt : t.amountCents = JNum.num amt) :
    balanceOf (computeBalances accounts (txs ++ [t])) src.id
        = balanceOf (computeBalances accounts txs) src.id - amt ∧
    balanceOf (computeBalances accounts (txs ++ [t])) dst.id
        = balanceOf (computeBalances accounts txs) dst.id + amt ∧
    balanceOf (computeBalances accounts (txs ++ [t])) src.id
        + balanceOf (computeBalances accounts (txs ++ [t])) dst.id
      = balanceOf (computeBalances accounts txs) src.id
        + balanceOf (computeBalances accounts txs) dst.id := by
  have ha := amtOf_num t amt hamt
  rw [balanceOf_cash accounts (txs ++ [t]) src hnd hs hsT,
    balanceOf_cash accounts txs src hnd hs hsT,
    balanceOf_cash accounts (txs ++ [t]) dst hnd hd hdT,
    balanceOf_cash accounts txs dst hnd hd hdT,
    efSum_append, efSum_append,
    efDelta_transfer_cash_cash accounts t src dst hnd hs hd hsT hdT hne hty hfrom hto src.id,
    efDelta_transfer_cash_cash accounts t src dst hnd hs hd hsT hdT hne hty hfrom hto dst.id,
    if_pos rfl, if_neg hne, if_neg (fun hc => hne hc.symm), if_pos rfl, ha]
  omega

theorem transfer_cash_cash_conservation_witness :
    (([accA4, accB4].map Account.id).Nodup) ∧
    (balanceOf (computeBalances [accA4, accB4] ([] ++ [txC4])) (str "a")
        = balanceOf (computeBalances [accA4, accB4] []) (str "a") - 4000 ∧
     balanceOf (computeBalances [accA4, accB4] ([] ++ [txC4])) (str "b")
        = balanceOf (computeBalances [accA4, accB4] []) (str "b") + 4000 ∧
     balanceOf (computeBalances [accA4, accB4] ([] ++ [txC4])) (str "a")
        + balanceOf (computeBalances [accA4, accB4] ([] ++ [txC4])) (str "b")
      = balanceOf (computeBalances [accA4, accB4] []) (str "a")
        + balanceOf (computeBalances [accA4, accB4] []) (str "b")) :=
  ⟨by decide,
    transfer_cash_cash_conservation [accA4, accB4] [] txC4 accA4 accB4 4000
      (by decide) (by decide) (by decide) rfl rfl (by decide) rfl rfl rfl rfl⟩

/-- C5: a transaction referencing an account id not present in the registry
(an Income with unknown destination, an Expense with unknown source, or a
Transfer with an unknown endpoint) is skipped entirely: the whole
`computeBalances` result is the same as if the transaction were absent. -/
theorem unknown_account_tx_skipped (accounts : List Account) (txs : List Tx) (t : Tx)
    (hunk : (t.type = strINGRESO ∧ ∀ a ∈ accounts, some a.id ≠ t.accountToId) ∨
            (t.type = strGASTO ∧ ∀ a ∈ accounts, some a.id ≠ t.accountFromId) ∨
            (t.type = strTRANSFERENCIA ∧
              ((∀ a ∈ accounts, some a.id ≠ t.accountFromId) ∨
               (∀ a ∈ accounts, some a.id ≠ t.accountToId)))) :
    computeBalances accounts (txs ++ [t]) = computeBalances accounts txs :=
  computeBalances_append_inert accounts txs t
    (deltas_unknown accounts t hunk).1 (deltas_unknown accounts t hunk).2

theorem unknown_account_tx_skipped_witness :
    (txGhost.type = strGASTO ∧ ∀ a ∈ [wAcct], some a.id ≠ txGhost.accountFromId) ∧
    computeBalances [wAcct] ([wTxIncome] ++ [txGhost])
      = computeBalances [wAcct] [wTxIncome] :=
  ⟨by decide,
    unknown_account_tx_skipped [wAcct] [wTxIncome] txGhost
      (Or.inr (Or.inl ⟨rfl, by decide⟩))⟩

/-- C10: adding a single Expense from a Cash account present in the registry
decreases that account's balance by the amount and leaves every other
account's reported balance and credit availability unchanged (the source
account's credit availability is also unchanged). -/
theorem expense_cash_frame_effect (accounts : List Account) (txs : List Tx)
    (t : Tx) (src : Account) (amt : Int)
    (hnd : (accounts.map Account.id).Nodup)
    (hs : src ∈ accounts) (hsT : src.type = AccountType.CASH)
    (hty : t.type = strGASTO) (hfrom : t.accountFromId = some src.id)
    (hamt : t.amountCents = JNum.num amt) :
    balanceOf (computeBalances accounts (txs ++ [t])) src.id
        = balanceOf (computeBalances accounts txs) src.id - amt ∧
    creditAvailOf (computeBalances accounts (txs ++ [t])) src.id
        = creditAvailOf (computeBalances accounts txs) src.id ∧
    (∀ b ∈ accounts, ¬(b.id = src.id) →
      balanceOf (computeBalances accounts (txs ++ [t])) b.id
          = balanceOf (computeBalances accounts txs) b.id ∧
      creditAvailOf (computeBalances accounts (txs ++ [t])) b.id
          = creditAvailOf (computeBalances accounts txs) b.id) := by
  have ha := amtOf_num t amt hamt
  refine ⟨?_, ?_, ?_⟩
  · rw [balanceOf_cash accounts (txs ++ [t]) src hnd hs hsT,
      balanceOf_cash accounts txs src hnd hs hsT, efSum_append,
      efDelta_gasto_cash accounts t src hnd hs hsT hty hfrom src.id, if_pos rfl, ha]
    omega
  · rw [creditAvailOf_cash accounts (txs ++ [t]) src hnd hs hsT,
      creditAvailOf_cash accounts txs src hnd hs hsT]
  · intro b hb hne
    cases hbT : b.type
    · constructor
      · rw [balanceOf_cash accounts (txs ++ [t]) b hnd hb hbT,
          balanceOf_cash accounts txs b hnd hb hbT, efSum_append,
          efDelta_gasto_cash accounts t src hnd hs hsT hty hfrom b.id, if_neg hne,
          add_zero]
      · rw [creditAvailOf_cash accounts (txs ++ [t]) b hnd hb hbT,
          creditAvailOf_cash accounts txs b hnd hb hbT]
    · constructor
      · rw [balanceOf_credit accounts (txs ++ [t]) b hnd hb hbT,
          balanceOf_credit accounts txs b hnd hb hbT, debtSum_append,
          debtDelta_gasto_cash accounts t src hnd hs hsT hty hfrom b.id, add_zero]
      · rw [creditAvailOf_credit accounts (txs ++ [t]) b hnd hb hbT,
          creditAvailOf_credit accounts txs b hnd hb hbT, debtSum_append,
          debtDelta_gasto_cash accounts t src hnd hs hsT hty hfrom b.id, add_zero]

theorem expense_cash_frame_effect_witness :
    (([wAcct, ceCredit1].map Account.id).Nodup) ∧
    (balanceOf (computeBalances [wAcct, ceCredit1] ([] ++ [wTxExpense])) wAcct.id
        = balanceOf (computeBalances [wAcct, ceCredit1] []) wAcct.id - 30 ∧
     creditAvailOf (computeBalances [wAcct, ceCredit1] ([] ++ [wTxExpense])) wAcct.id
        = creditAvailOf (computeBalances [wAcct, ceCredit1] []) wAcct.id ∧
     (∀ b ∈ [wAcct, ceCredit1], ¬(b.id = wAcct.id) →
        balanceOf (computeBalances [wAcct, ceCredit1] ([] ++ [wTxExpense])) b.id
            = balanceOf (computeBalances [wAcct, ceCredit1] []) b.id ∧
        creditAvailOf (computeBalances [wAcct, ceCredit1] ([] ++ [wTxExpense])) b.id
            = creditAvailOf (computeBalances [wAcct, ceCredit1] []) b.id)) :=
  ⟨by decide,
    expense_cash_frame_effect [wAcct, ceCredit1] [] wTxExpense wAcct 30
      (by decide) (by decide) rfl rfl rfl rfl⟩

/-- C2 (bug evidence): in the App.tsx `computeBalances`, an Income of 20000
into a Credit account carrying debt 5000 leaves the debt untouched (reported
balance stays -5000, available credit stays 95000), while the part_000
variant of the same function pays the debt down as the spec describes
(balance becomes 15000). -/
theorem income_to_credit_scenarioD_divergence :
    balanceOf (computeBalances [cardD] [txD]) (str "card") = -5000 ∧
    creditAvailOf (computeBalances [cardD] [txD]) (str "card") = some 95000 ∧
    Legacy.balanceOf (Legacy.computeBalances [cardD] [txD]) (str "card")
      = some (JNum.num 15000) := by
  decide

theorem setKey_append_of_none {α : Type} (m : List (Str × α)) (k : Str) (v : α)
    (h : (getKey m k).isSome = false) : setKey m k v = m ++ [(k, v)] := by
  induction m with
  | nil => rfl
  | cons p rest ih =>
    obtain ⟨k', v'⟩ := p
    rw [getKey_cons] at h
    by_cases hk : k' = k
    · rw [if_pos hk] at h
      simp at h
    · rw [if_neg hk] at h
      rw [setKey_cons, if_neg hk, ih h, List.cons_append]

theorem isSome_getKey_foldl_accMapStep (l : List Account) :
    ∀ (m : List (Str × Account)) (k : Str),
      (getKey (l.foldl accMapStep m) k).isSome
        = ((getKey m k).isSome || l.any (fun a => decide (a.id = k))) := by
  induction l with
  | nil => intro m k; simp
  | cons a as ih =>
    intro m k
    rw [List.foldl_cons, ih, List.any_cons]
    simp only [accMapStep, isSome_getKey_setKey]
    by_cases hk : k = a.id
    · simp [hk]
    · have hk2 : ¬(a.id = k) := fun hc => hk hc.symm
      simp [hk, hk2]

theorem foldl_accMapStep_of_fresh (l : List Account) :
    ∀ (m : List (Str × Account)),
      (∀ a ∈ l, (getKey m a.id).isSome = false) → (l.map Account.id).Nodup →
      l.foldl accMapStep m = m ++ l.map (fun a => (a.id, a)) := by
  induction l with
  | nil => intro m _ _; simp
  | cons a as ih =>
    intro m hfresh hnd
    rw [List.foldl_cons]
    have hstep : accMapStep m a = m ++ [(a.id, a)] :=
      setKey_append_of_none m a.id a (hfresh a (List.mem_cons.mpr (Or.inl rfl)))
    rw [hstep, ih (m ++ [(a.id, a)]) ?_ (nodup_tail_ids a as hnd).2]
    · rw [List.append_assoc, List.map_cons, List.singleton_append]
    · intro b hb
      have h1 : (getKey m b.id).isSome = false :=
        hfresh b (List.mem_cons.mpr (Or.inr hb))
      have h2 : ¬(b.id ∈ (m ++ [(a.id, a)]).map Prod.fst) := by
        rw [List.map_append, List.mem_append]
        rintro (hc | hc)
        · rw [mem_keys_iff_isSome] at hc
          rw [h1] at hc
          cases hc
        · simp only [List.map_cons, List.map_nil, List.mem_singleton] at hc
          exact (nodup_tail_ids a as hnd).1 b hb hc
      rw [← Bool.not_eq_true]
      intro hc
      exact h2 ((mem_keys_iff_isSome _ _).mpr hc)

theorem buildById_eq_of_nodup (current : List Account)
    (hnd : (current.map Account.id).Nodup) :
    buildById current = current.map (fun a => (a.id, a)) := by
  rw [buildById, foldl_accMapStep_of_fresh current [] (fun a _ => rfl) hnd,
    List.nil_append]

theorem mem_setKey {α : Type} (m : List (Str × α)) (k : Str) (v : α) (q : Str × α)
    (h : q ∈ setKey m k v) : q ∈ m ∨ q = (k, v) := by
  induction m with
  | nil =>
    simp only [setKey, List.mem_singleton] at h
    exact Or.inr h
  | cons p rest ih =>
    obtain ⟨k', v'⟩ := p
    rw [setKey_cons] at h
    by_cases hk : k' = k
    · rw [if_pos hk] at h
      rcases List.mem_cons.mp h with hq | hq
      · exact Or.inr hq
      · exact Or.inl (List.mem_cons.mpr (Or.inr hq))
    · rw [if_neg hk] at h
      rcases List.mem_cons.mp h with hq | hq
      · exact Or.inl (List.mem_cons.mpr (Or.inl hq))
      · rcases ih hq with hq2 | hq2
        · exact Or.inl (List.mem_cons.mpr (Or.inr hq2))
        · exact Or.inr hq2

theorem foldl_accMapStep_pair_inv (l : List Account) :
    ∀ (m : List (Str × Account)), (∀ q ∈ m, q.1 = q.2.id) →
      ∀ q ∈ l.foldl accMapStep m, q.1 = q.2.id := by
  induction l with
  | nil => intro m hm q hq; exact hm q hq
  | cons a as ih =>
    intro m hm q hq
    refine ih (accMapStep m a) ?_ q hq
    intro q' hq'
    rcases mem_setKey m a.id a q' hq' with h | h
    · exact hm q' h
    · rw [h]

theorem seedFold_fst (ds : List Account) :
    ∀ (m : List (Str × Account)) (b : Bool), ∃ pairs : List (Str × Account),
      (ds.foldl seedStep (m, b)).1 = m ++ pairs ∧
      ∀ q ∈ pairs, q.2 ∈ ds ∧ q.1 = q.2.id := by
  induction ds with
  | nil => intro m b; exact ⟨[], by simp, by simp⟩
  | cons d ds' ih =>
    intro m b
    rw [List.foldl_cons]
    by_cases hd : (getKey m d.id).isSome = true
    · obtain ⟨pairs, h1, h2⟩ := ih m b
      refine ⟨pairs, ?_, fun q hq => ⟨List.mem_cons.mpr (Or.inr (h2 q hq).1), (h2 q hq).2⟩⟩
      rw [← h1]
      simp only [seedStep, if_pos hd]
    · have hstep : seedStep (m, b) d = (m ++ [(d.id, d)], true) := by
        simp only [seedStep, if_neg hd]
        rw [setKey_append_of_none m d.id d (by simpa using hd)]
      obtain ⟨pairs, h1, h2⟩ := ih (m ++ [(d.id, d)]) true
      refine ⟨(d.id, d) :: pairs, ?_, ?_⟩
      · rw [hstep, h1, List.append_assoc, List.singleton_append]
      · intro q hq
        rcases List.mem_cons.mp hq with hq | hq
        · rw [hq]
          exact ⟨List.mem_cons.mpr (Or.inl rfl), rfl⟩
        · exact ⟨List.mem_cons.mpr (Or.inr (h2 q hq).1), (h2 q hq).2⟩

theorem seedFold_sticky (ds : List Account) :
    ∀ (m : List (Str × Account)), (ds.foldl seedStep (m, true)).2 = true := by
  induction ds with
  | nil => intro m; rfl
  | cons d ds' ih =>
    intro m
    rw [List.foldl_cons]
    by_cases hd : (getKey m d.id).isSome = true
    · rw [show seedStep (m, true) d = (m, true) by simp only [seedStep, if_pos hd]]
      exact ih m
    · rw [show seedStep (m, true) d = (setKey m d.id d, true) by
        simp only [seedStep, if_neg hd]]
      exact ih _

theorem seedFold_nochange (ds : List Account) :
    ∀ (m : List (Str × Account)) (b : Bool),
      (∀ d ∈ ds, (getKey m d.id).isSome = true) →
      ds.foldl seedStep (m, b) = (m, b) := by
  induction ds with
  | nil => intro m b _; rfl
  | cons d ds' ih =>
    intro m b h
    rw [List.foldl_cons,
      show seedStep (m, b) d = (m, b) by
        simp only [seedStep, if_pos (h d (List.mem_cons.mpr (Or.inl rfl)))]]
    exact ih m b (fun e he => h e (List.mem_cons.mpr (Or.inr he)))

theorem isSome_getKey_seedFold_mono (ds : List Account) :
    ∀ (m : List (Str × Account)) (b : Bool) (k : Str),
      (getKey m k).isSome = true →
      (getKey (ds.foldl seedStep (m, b)).1 k).isSome = true := by
  induction ds with
  | nil => intro m b k h; exact h
  | cons d ds' ih =>
    intro m b k h
    rw [List.foldl_cons]
    by_cases hd : (getKey m d.id).isSome = true
    · rw [show seedStep (m, b) d = (m, b) by simp only [seedStep, if_pos hd]]
      exact ih m b k h
    · rw [show seedStep (m, b) d = (setKey m d.id d, true) by
        simp only [seedStep, if_neg hd]]
      refine ih _ true k ?_
      rw [isSome_getKey_setKey, h, Bool.or_true]

theorem seedFold_complete (ds : List Account) :
    ∀ (m : List (Str × Account)) (b : Bool) (d : Account), d ∈ ds →
      (getKey (ds.foldl seedStep (m, b)).1 d.id).isSome = true := by
  induction ds with
  | nil => intro m b d hd; cases hd
  | cons e ds' ih =>
    intro m b d hd
    rw [List.foldl_cons]
    rcases List.mem_cons.mp hd with hde | hd'
    · subst hde
      by_cases he : (getKey m d.id).isSome = true
      · rw [show seedStep (m, b) d = (m, b) by simp only [seedStep, if_pos he]]
        exact isSome_getKey_seedFold_mono ds' m b d.id he
      · rw [show seedStep (m, b) d = (setKey m d.id d, true) by
          simp only [seedStep, if_neg he]]
        refine isSome_getKey_seedFold_mono ds' _ true d.id ?_
        rw [getKey_setKey_self]
        rfl
    · by_cases he : (getKey m e.id).isSome = true
      · rw [show seedStep (m, b) e = (m, b) by simp only [seedStep, if_pos he]]
        exact ih m b d hd'
      · rw [show seedStep (m, b) e = (setKey m e.id e, true) by
          simp only [seedStep, if_neg he]]
        exact ih _ true d hd'

theorem ensureAccounts_run_changed (current : List Account)
    (hr : (defaultAccounts.foldl seedStep (buildById current, false)).2 = true) :
    ensureAccounts current
      = (defaultAccounts.foldl seedStep (buildById current, false)).1.map
          (fun q => q.2) := by
  simp [ensureAccounts, hr]

theorem ensureAccounts_run_unchanged (current : List Account)
    (hr : ¬((defaultAccounts.foldl seedStep (buildById current, false)).2 = true)) :
    ensureAccounts current = current := by
  simp [ensureAccounts, hr]

theorem ensureAccounts_idem_aux (current : List Account) :
    ensureAccounts (ensureAccounts current) = ensureAccounts current := by
  by_cases hr : (defaultAccounts.foldl seedStep (buildById current, false)).2 = true
  · have hres := ensureAccounts_run_changed current hr
    have hinv : ∀ q ∈ (defaultAccounts.foldl seedStep (buildById current, false)).1,
        q.1 = q.2.id := by
      obtain ⟨pairs, h1, h2⟩ := seedFold_fst defaultAccounts (buildById current) false
      intro q hq
      rw [h1] at hq
      rcases List.mem_append.mp hq with hq | hq
      · exact foldl_accMapStep_pair_inv current [] (by simp) q hq
      · exact (h2 q hq).2
    have hall : ∀ d ∈ defaultAccounts,
        (getKey (buildById (ensureAccounts current)) d.id).isSome = true := by
      intro d hd
      rw [buildById, isSome_getKey_foldl_accMapStep]
      have hk : (getKey (defaultAccounts.foldl seedStep (buildById current, false)).1
          d.id).isSome = true :=
        seedFold_complete defaultAccounts _ false d hd
      rw [← mem_keys_iff_isSome] at hk
      obtain ⟨q, hq, hq2⟩ := List.mem_map.mp hk
      have hid : q.2.id = d.id := by rw [← hinv q hq, hq2]
      have hmem : q.2 ∈ ensureAccounts current := by
        rw [hres]
        exact List.mem_map_of_mem _ hq
      have hany : (ensureAccounts current).any (fun a => decide (a.id = d.id)) = true := by
        rw [List.any_eq_true]
        exact ⟨q.2, hmem, by simp [hid]⟩
      rw [hany, Bool.or_true]
    rw [ensureAccounts_run_unchanged (ensureAccounts current)]
    rw [seedFold_nochange defaultAccounts _ false hall]
    simp
  · have hcur := ensureAccounts_run_unchanged current hr
    rw [hcur, hcur]

theorem ensureAccounts_additive (current : List Account)
    (hnd : (current.map Account.id).Nodup) :
    ∃ extra : List Account,
      ensureAccounts current = current ++ extra ∧
      ∀ e ∈ extra, e ∈ defaultAccounts := by
  by_cases hr : (defaultAccounts.foldl seedStep (buildById current, false)).2 = true
  · obtain ⟨pairs, h1, h2⟩ := seedFold_fst defaultAccounts (buildById current) false
    refine ⟨pairs.map (fun q => q.2), ?_, ?_⟩
    · rw [ensureAccounts_run_changed current hr, h1, List.map_append,
        buildById_eq_of_nodup current hnd, List.map_map]
      have : (fun (q : Str × Account) => q.2) ∘ (fun a => (a.id, a)) = id := by
        funext a
        rfl
      rw [this, List.map_id]
    · intro e he
      obtain ⟨q, hq, hq2⟩ := List.mem_map.mp he
      rw [← hq2]
      exact (h2 q hq).1
  · exact ⟨[], by rw [ensureAccounts_run_unchanged current hr, List.append_nil], by simp⟩

theorem catFold (haveIds : List Str) (ds : List Category) :
    ∀ (cur : List Category) (b : Bool),
      ds.foldl (fun (p : List Category × Bool) c =>
          if c.id ∈ haveIds then p else (p.1 ++ [c], true)) (cur, b)
        = (cur ++ ds.filter (fun c => !decide (c.id ∈ haveIds)),
           b || ds.any (fun c => !decide (c.id ∈ haveIds))) := by
  induction ds with
  | nil => intro cur b; simp
  | cons c cs ih =>
    intro cur b
    rw [List.foldl_cons]
    by_cases hc : c.id ∈ haveIds
    · rw [if_pos hc, ih]
      simp [hc]
    · rw [if_neg hc, ih]
      simp [hc]

theorem ensureCategories_eq (cats : List Category) :
    ensureCategories cats
      = cats ++ defaultCategories.filter
          (fun c => !decide (c.id ∈ cats.map (fun x => x.id))) := by
  simp only [ensureCategories]
  rw [catFold]
  by_cases hb : defaultCategories.any
      (fun c => !decide (c.id ∈ cats.map (fun x => x.id))) = true
  · simp [hb]
  · have hb' : defaultCategories.any
        (fun c => !decide (c.id ∈ cats.map (fun x => x.id))) = false := by
      simpa using hb
    have hfil : defaultCategories.filter
        (fun c => !decide (c.id ∈ cats.map (fun x => x.id))) = [] := by
      rw [List.filter_eq_nil]
      rw [List.any_eq_false] at hb'
      exact hb'
    simp [hb', hfil]

theorem ensureCategories_idem_aux (cats : List Category) :
    ensureCategories (ensureCategories cats) = ensureCategories cats := by
  rw [ensureCategories_eq cats, ensureCategories_eq]
  have hfil : defaultCategories.filter
      (fun c => !decide (c.id ∈ ((cats ++ defaultCategories.filter
        (fun c => !decide (c.id ∈ cats.map (fun x => x.id)))).map (fun x => x.id)))) = [] := by
    rw [List.filter_eq_nil]
    intro d hd
    simp only [Bool.not_eq_true', Bool.not_not, decide_eq_true_eq, List.map_append,
      List.mem_append, Bool.not_eq_true, decide_eq_false_iff_not, not_not]
    by_cases hc : d.id ∈ cats.map (fun x => x.id)
    · exact Or.inl hc
    · have hdm : d ∈ defaultCategories.filter
          (fun c => !decide (c.id ∈ cats.map (fun x => x.id))) := by
        rw [List.mem_filter]
        exact ⟨hd, by simp [hc]⟩
      exact Or.inr (List.mem_map_of_mem (fun x : Category => x.id) hdm)
  rw [hfil, List.append_nil]

theorem ensureCategories_additive (cats : List Category) :
    ∃ extra : List Category,
      ensureCategories cats = cats ++ extra ∧
      ∀ e ∈ extra, e ∈ defaultCategories := by
  refine ⟨_, ensureCategories_eq cats, ?_⟩
  intro e he
  exact (List.mem_filter.mp he).1

/-- C9 counterexample: on a registry with two entries sharing one id,
`ensureAccounts` (run once, while it appends missing seeds) also collapses
the duplicate-id entries, removing the earlier one — so reconciliation is
not purely additive on arbitrary registry states. -/
theorem ensureAccounts_removes_duplicate_entry :
    dupA1 ∈ [dupA1, dupA2] ∧ ¬(dupA1 ∈ ensureAccounts [dupA1, dupA2]) := by
  decide

/-- C9 (amended): registry reconciliation is idempotent for both
`ensureAccounts` and `ensureCategories` on every registry state, and it is
purely additive — the result is the input registry followed by some subset of
the seed entries, so existing entries are kept unchanged (even when a seed
definition under the same id differs) — provided, for `ensureAccounts`, that
the registry's ids are duplicate-free (with duplicated ids an append run
also deduplicates, as the counterexample shows). -/
theorem registry_reconciliation_idem_additive (current : List Account)
    (cats : List Category) (hnd : (current.map Account.id).Nodup) :
    ensureAccounts (ensureAccounts current) = ensureAccounts current ∧
    (∃ extra : List Account,
      ensureAccounts current = current ++ extra ∧ ∀ e ∈ extra, e ∈ defaultAccounts) ∧
    ensureCategories (ensureCategories cats) = ensureCategories cats ∧
    (∃ extra : List Category,
      ensureCategories cats = cats ++ extra ∧ ∀ e ∈ extra, e ∈ defaultCategories) :=
  ⟨ensureAccounts_idem_aux current, ensureAccounts_additive current hnd,
    ensureCategories_idem_aux cats, ensureCategories_additive cats⟩

theorem registry_reconciliation_idem_additive_witness :
    (([modifiedDaviplata].map Account.id).Nodup) ∧
    (ensureAccounts (ensureAccounts [modifiedDaviplata])
        = ensureAccounts [modifiedDaviplata] ∧
     (∃ extra : List Account,
       ensureAccounts [modifiedDaviplata] = [modifiedDaviplata] ++ extra ∧
       ∀ e ∈ extra, e ∈ defaultAccounts) ∧
     ensureCategories (ensureCategories [modifiedMercado])
        = ensureCategories [modifiedMercado] ∧
     (∃ extra : List Category,
       ensureCategories [modifiedMercado] = [modifiedMercado] ++ extra ∧
       ∀ e ∈ extra, e ∈ defaultCategories)) :=
  ⟨by decide,
    registry_reconciliation_idem_additive [modifiedDaviplata] [modifiedMercado] (by decide)⟩

theorem splitOnChar_ne_nil (c : Char) (s : Str) : splitOnChar c s ≠ [] := by
  cases s with
  | nil => simp [splitOnChar]
  | cons x xs =>
    simp only [splitOnChar]
    by_cases h : x = c
    · simp [h]
    · rw [if_neg h]
      cases splitOnChar c xs <;> simp

theorem splitOnChar_of_not_mem (c : Char) (s : Str) (h : ¬(c ∈ s)) :
    splitOnChar c s = [s] := by
  induction s with
  | nil => rfl
  | cons x xs ih =>
    have hx : ¬(x = c) := fun hc => h (hc ▸ List.mem_cons.mpr (Or.inl rfl))
    have hxs : ¬(c ∈ xs) := fun hc => h (List.mem_cons.mpr (Or.inr hc))
    simp only [splitOnChar, if_neg hx, ih hxs]

theorem splitOnChar_append_sep (c : Char) (x t : Str) (h : ¬(c ∈ x)) :
    splitOnChar c (x ++ c :: t) = x :: splitOnChar c t := by
  induction x with
  | nil => simp [splitOnChar]
  | cons ch x' ih =>
    have hch : ¬(ch = c) := fun hc => h (hc ▸ List.mem_cons.mpr (Or.inl rfl))
    have hx' : ¬(c ∈ x') := fun hc => h (List.mem_cons.mpr (Or.inr hc))
    have hrec := ih hx'
    simp only [List.cons_append, splitOnChar, if_neg hch]
    rw [show splitOnChar c (x'.append (c :: t)) = x' :: splitOnChar c t from hrec]

theorem splitOnChar_intercalateChar (c : Char) (xss : List Str) (hne : xss ≠ [])
    (h : ∀ xs ∈ xss, ¬(c ∈ xs)) :
    splitOnChar c (intercalateChar c xss) = xss := by
  induction xss with
  | nil => exact absurd rfl hne
  | cons x rest ih =>
    cases rest with
    | nil =>
      rw [show intercalateChar c [x] = x from rfl]
      exact splitOnChar_of_not_mem c x (h x (List.mem_cons.mpr (Or.inl rfl)))
    | cons y ys =>
      rw [show intercalateChar c (x :: y :: ys) = x ++ c :: intercalateChar c (y :: ys)
        from rfl]
      rw [splitOnChar_append_sep c x _ (h x (List.mem_cons.mpr (Or.inl rfl)))]
      rw [ih (by simp) (fun xs hxs => h xs (List.mem_cons.mpr (Or.inr hxs)))]

theorem mem_intercalateChar (c : Char) (xss : List Str) (ch : Char)
    (h : ch ∈ intercalateChar c xss) : ch = c ∨ ∃ xs ∈ xss, ch ∈ xs := by
  induction xss with
  | nil => cases h
  | cons x rest ih =>
    cases rest with
    | nil =>
      exact Or.inr ⟨x, List.mem_cons.mpr (Or.inl rfl), h⟩
    | cons y ys =>
      rw [show intercalateChar c (x :: y :: ys) = x ++ c :: intercalateChar c (y :: ys)
        from rfl] at h
      rcases List.mem_append.mp h with hx | ht
      · exact Or.inr ⟨x, List.mem_cons.mpr (Or.inl rfl), hx⟩
      · rcases List.mem_cons.mp ht with hc | ht'
        · exact Or.inl hc
        · rcases ih ht' with hc | ⟨xs, hxs, hm⟩
          · exact Or.inl hc
          · exact Or.inr ⟨xs, List.mem_cons.mpr (Or.inr hxs), hm⟩

theorem intercalateChar_two_ne_nil (c : Char) (x y : Str) (ys : List Str) :
    intercalateChar c (x :: y :: ys) ≠ [] := by
  rw [show intercalateChar c (x :: y :: ys) = x ++ c :: intercalateChar c (y :: ys)
    from rfl]
  cases x <;> simp

theorem digitChar_toNat (d : Nat) (h : d < 10) : (digitChar d).toNat = 48 + d := by
  interval_cases d <;> rfl

theorem natDigitsAux_ne_nil : ∀ (fuel n : Nat), n < fuel → natDigitsAux fuel n ≠ [] := by
  intro fuel
  cases fuel with
  | zero => intro n h; omega
  | succ f =>
    intro n _
    rw [natDigitsAux]
    by_cases h : n < 10
    · simp [h]
    · simp [h]

theorem natDigits_ne_nil (n : Nat) : natDigits n ≠ [] :=
  natDigitsAux_ne_nil (n + 1) n (by omega)

theorem natDigitsAux_digits : ∀ (fuel n : Nat), n < fuel →
    ∀ ch ∈ natDigitsAux fuel n, 48 ≤ ch.toNat ∧ ch.toNat ≤ 57 := by
  intro fuel
  induction fuel with
  | zero => intro n h; omega
  | succ f ih =>
    intro n hn ch hch
    rw [natDigitsAux] at hch
    by_cases h : n < 10
    · rw [if_pos h] at hch
      rw [List.mem_singleton] at hch
      subst hch
      rw [digitChar_toNat n h]
      omega
    · rw [if_neg h] at hch
      rcases List.mem_append.mp hch with hm | hm
      · have hlt : n / 10 < f := by
          have := Nat.div_lt_self (show 0 < n by omega) (show 1 < 10 by omega)
          omega
        exact ih (n / 10) hlt ch hm
      · rw [List.mem_singleton] at hm
        subst hm
        rw [digitChar_toNat (n % 10) (Nat.mod_lt n (by omega))]
        omega

theorem natDigits_digits (n : Nat) :
    ∀ ch ∈ natDigits n, 48 ≤ ch.toNat ∧ ch.toNat ≤ 57 :=
  natDigitsAux_digits (n + 1) n (by omega)

theorem parseNatAux_digits (s : Str) :
    ∀ acc : Nat, (∀ ch ∈ s, 48 ≤ ch.toNat ∧ ch.toNat ≤ 57) →
      parseNatAux s acc
        = some (s.foldl (fun a ch => a * 10 + (ch.toNat - 48)) acc) := by
  induction s with
  | nil => intro acc _; rfl
  | cons ch rest ih =>
    intro acc h
    have hd : digitVal ch = some (ch.toNat - 48) := by
      rw [digitVal, if_pos (h ch (List.mem_cons.mpr (Or.inl rfl)))]
    rw [show parseNatAux (ch :: rest) acc
        = match digitVal ch with
          | some d => parseNatAux rest (acc * 10 + d)
          | none => none
      from rfl, hd]
    rw [show (match some (ch.toNat - 48) with
        | some d => parseNatAux rest (acc * 10 + d)
        | none => none) = parseNatAux rest (acc * 10 + (ch.toNat - 48)) from rfl]
    rw [ih (acc * 10 + (ch.toNat - 48)) (fun c hc => h c (List.mem_cons.mpr (Or.inr hc)))]
    rfl

theorem foldl_natDigitsAux : ∀ (fuel n : Nat), n < fuel →
    (natDigitsAux fuel n).foldl (fun a ch => a * 10 + (ch.toNat - 48)) 0 = n := by
  intro fuel
  induction fuel with
  | zero => intro n h; omega
  | succ f ih =>
    intro n hn
    rw [natDigitsAux]
    by_cases h : n < 10
    · rw [if_pos h]
      simp only [List.foldl_cons, List.foldl_nil]
      rw [digitChar_toNat n h]
      omega
    · rw [if_neg h, List.foldl_append]
      have hlt : n / 10 < f := by
        have := Nat.div_lt_self (show 0 < n by omega) (show 1 < 10 by omega)
        omega
      rw [ih (n / 10) hlt]
      simp only [List.foldl_cons, List.foldl_nil]
      rw [digitChar_toNat (n % 10) (Nat.mod_lt n (by omega))]
      omega

theorem foldl_natDigits (n : Nat) :
    (natDigits n).foldl (fun a ch => a * 10 + (ch.toNat - 48)) 0 = n :=
  foldl_natDigitsAux (n + 1) n (by omega)

theorem parseNat_natDigits (n : Nat) : parseNat (natDigits n) = some n := by
  rw [parseNat, if_neg (natDigits_ne_nil n),
    parseNatAux_digits (natDigits n) 0 (natDigits_digits n), foldl_natDigits]

theorem natDigits_head (n : Nat) :
    ∃ ch rest, natDigits n = ch :: rest ∧ ¬(ch = '-') := by
  cases hd : natDigits n with
  | nil => exact absurd hd (natDigits_ne_nil n)
  | cons ch rest =>
    refine ⟨ch, rest, rfl, ?_⟩
    intro hc
    have := natDigits_digits n ch (hd ▸ List.mem_cons.mpr (Or.inl rfl))
    rw [hc] at this
    simp at this

theorem jsNumber_intToStr (i : Int) : jsNumber (intToStr i) = JNum.num i := by
  by_cases hneg : i < 0
  · rw [intToStr, if_pos hneg]
    rw [show jsNumber ('-' :: natDigits (-i).toNat)
        = (if ('-' : Char) = '-' then
            match parseNat (natDigits (-i).toNat) with
            | some n => JNum.num (-(n : Int))
            | none => JNum.nan
          else
            match parseNat ('-' :: natDigits (-i).toNat) with
            | some n => JNum.num (n : Int)
            | none => JNum.nan)
      from rfl, if_pos rfl, parseNat_natDigits]
    have hc : (((-i).toNat : Int)) = -i := Int.toNat_of_nonneg (by omega)
    rw [show (match some ((-i).toNat) with
        | some n => JNum.num (-(n : Int))
        | none => JNum.nan) = JNum.num (-(((-i).toNat : Int))) from rfl, hc]
    rw [neg_neg]
  · rw [intToStr, if_neg hneg]
    obtain ⟨ch, rest, hd, hch⟩ := natDigits_head i.toNat
    rw [hd]
    rw [show jsNumber (ch :: rest)
        = (if ch = '-' then
            match parseNat rest with
            | some n => JNum.num (-(n : Int))
            | none => JNum.nan
          else
            match parseNat (ch :: rest) with
            | some n => JNum.num (n : Int)
            | none => JNum.nan)
      from rfl, if_neg hch, ← hd, parseNat_natDigits]
    rw [show (match some i.toNat with
        | some n => JNum.num (n : Int)
        | none => JNum.nan) = JNum.num ((i.toNat : Int)) from rfl]
    rw [Int.toNat_of_nonneg (by omega)]

theorem jsNumber_jnumToStr (j : JNum) : jsNumber (jnumToStr j) = j := by
  cases j with
  | num n => exact jsNumber_intToStr n
  | nan => decide

theorem jnumToStr_ne_nil (j : JNum) : jnumToStr j ≠ [] := by
  cases j with
  | num n =>
    rw [jnumToStr, intToStr]
    by_cases h : n < 0
    · simp [h]
    · rw [if_neg h]
      exact natDigits_ne_nil n.toNat
  | nan => decide

theorem mem_intToStr (i : Int) (ch : Char) (h : ch ∈ intToStr i) :
    ch = '-' ∨ (48 ≤ ch.toNat ∧ ch.toNat ≤ 57) := by
  rw [intToStr] at h
  by_cases hneg : i < 0
  · rw [if_pos hneg] at h
    rcases List.mem_cons.mp h with hc | hc
    · exact Or.inl hc
    · exact Or.inr (natDigits_digits _ ch hc)
  · rw [if_neg hneg] at h
    exact Or.inr (natDigits_digits _ ch h)

theorem mem_jnumToStr_toNat (j : JNum) (ch : Char) (h : ch ∈ jnumToStr j) :
    ch.toNat = 45 ∨ (48 ≤ ch.toNat ∧ ch.toNat ≤ 57) ∨ ch.toNat = 78 ∨ ch.toNat = 97 := by
  cases j with
  | num n =>
    rcases mem_intToStr n ch h with hc | hc
    · subst hc
      exact Or.inl rfl
    · exact Or.inr (Or.inl hc)
  | nan =>
    have h2 : ch ∈ ['N', 'a', 'N'] := h
    rcases List.mem_cons.mp h2 with rfl | h2
    · exact Or.inr (Or.inr (Or.inl rfl))
    · rcases List.mem_cons.mp h2 with rfl | h2
      · exact Or.inr (Or.inr (Or.inr rfl))
      · rcases List.mem_cons.mp h2 with rfl | h2
        · exact Or.inr (Or.inr (Or.inl rfl))
        · cases h2

theorem comma_not_mem_jnumToStr (j : JNum) : ¬((',' : Char) ∈ jnumToStr j) := by
  intro h
  rcases mem_jnumToStr_toNat j ',' h with hc | hc | hc | hc <;> simp_all

theorem newline_not_mem_jnumToStr (j : JNum) : ¬(('\n' : Char) ∈ jnumToStr j) := by
  intro h
  rcases mem_jnumToStr_toNat j '\n' h with hc | hc | hc | hc <;> simp_all

theorem cr_not_mem_jnumToStr (j : JNum) : ¬(('\r' : Char) ∈ jnumToStr j) := by
  intro h
  rcases mem_jnumToStr_toNat j '\r' h with hc | hc | hc | hc <;> simp_all

theorem comma_not_mem_replaceCommas (s : Str) : ¬((',' : Char) ∈ replaceCommas s) := by
  intro h
  rw [replaceCommas] at h
  obtain ⟨ch, _, hch⟩ := List.mem_map.mp h
  by_cases hc : ch = ','
  · rw [if_pos hc] at hch
    exact absurd hch (by decide)
  · rw [if_neg hc] at hch
    exact hc hch

theorem mem_replaceCommas (s : Str) (ch : Char) (h : ch ∈ replaceCommas s) :
    ch = ';' ∨ ch ∈ s := by
  rw [replaceCommas] at h
  obtain ⟨c0, hc0, hch⟩ := List.mem_map.mp h
  by_cases hc : c0 = ','
  · rw [if_pos hc] at hch
    exact Or.inl hch.symm
  · rw [if_neg hc] at hch
    exact Or.inr (hch ▸ hc0)

theorem getD_not_mem {c : Char} (o : Option Str) (h : optWF o)
    (hc : c = ',' ∨ c = '\n' ∨ c = '\r') : ¬(c ∈ o.getD []) := by
  cases ho : o with
  | none => simp [ho]
  | some s =>
    rw [ho] at h
    have hs : csvSafe s := h.1
    rcases hc with rfl | rfl | rfl
    · exact hs.1
    · exact hs.2.1
    · exact hs.2.2

/-- The nine fields of a well-formed row are comma-free, so splitting the
row recovers them. -/
theorem splitOnChar_txRow (t : Tx) (h : txWF t) :
    splitOnChar ',' (txRow t)
      = [t.id, t.type, t.date, jnumToStr t.amountCents,
         t.accountFromId.getD [], t.accountToId.getD [], t.categoryId.getD [],
         t.paymentMethod.getD [], replaceCommas (t.note.getD [])] := by
  obtain ⟨hid, hty, _, hdate, _, hfrom, hto, hcat, hpm, _, _⟩ := h
  apply splitOnChar_intercalateChar
  · simp
  · intro xs hxs
    simp only [List.mem_cons, List.not_mem_nil, or_false] at hxs
    rcases hxs with rfl | rfl | rfl | rfl | rfl | rfl | rfl | rfl | rfl
    · exact hid.1
    · exact hty.1
    · exact hdate.1
    · exact comma_not_mem_jnumToStr t.amountCents
    · exact getD_not_mem _ hfrom (Or.inl rfl)
    · exact getD_not_mem _ hto (Or.inl rfl)
    · exact getD_not_mem _ hcat (Or.inl rfl)
    · exact getD_not_mem _ hpm (Or.inl rfl)
    · exact comma_not_mem_replaceCommas _

theorem not_mem_txRow (t : Tx) (h : txWF t) {c : Char}
    (hc : c = '\n' ∨ c = '\r') : ¬(c ∈ txRow t) := by
  obtain ⟨hid, hty, _, hdate, _, hfrom, hto, hcat, hpm, hn1, hn2⟩ := h
  intro hm
  rcases mem_intercalateChar ',' _ c hm with hsep | ⟨xs, hxs, hmem⟩
  · rcases hc with rfl | rfl <;> exact absurd hsep (by decide)
  · simp only [List.mem_cons, List.not_mem_nil, or_false] at hxs
    rcases hxs with rfl | rfl | rfl | rfl | rfl | rfl | rfl | rfl | rfl
    · rcases hc with rfl | rfl
      · exact hid.2.1 hmem
      · exact hid.2.2 hmem
    · rcases hc with rfl | rfl
      · exact hty.2.1 hmem
      · exact hty.2.2 hmem
    · rcases hc with rfl | rfl
      · exact hdate.2.1 hmem
      · exact hdate.2.2 hmem
    · rcases hc with rfl | rfl
      · exact newline_not_mem_jnumToStr _ hmem
      · exact cr_not_mem_jnumToStr _ hmem
    · exact getD_not_mem _ hfrom (Or.inr hc) hmem
    · exact getD_not_mem _ hto (Or.inr hc) hmem
    · exact getD_not_mem _ hcat (Or.inr hc) hmem
    · exact getD_not_mem _ hpm (Or.inr hc) hmem
    · rcases mem_replaceCommas _ c hmem with rfl | hmem2
      · rcases hc with hc | hc <;> exact absurd hc (by decide)
      · rcases hc with rfl | rfl
        · exact hn1 hmem2
        · exact hn2 hmem2

theorem txRow_ne_nil (t : Tx) : txRow t ≠ [] := by
  rw [txRow]
  exact intercalateChar_two_ne_nil ',' _ _ _

theorem toOpt_getD (o : Option Str) (h : optWF o) : toOpt (o.getD []) = o := by
  cases ho : o with
  | none => rfl
  | some s =>
    rw [ho] at h
    have hs : ¬(s = []) := h.2
    simp [toOpt, hs]

theorem txTuple_parseRow_txRow (gen : Nat → Str) (today : Str) (now : Int) (i : Nat)
    (t : Tx) (h : txWF t) :
    txTuple (parseRow gen today now i (txRow t)) = txTuple t := by
  have hsplit := splitOnChar_txRow t h
  obtain ⟨hid, hty, htyne, hdate, hdatene, hfrom, hto, hcat, hpm, hn1, hn2⟩ := h
  simp only [parseRow, hsplit, List.getD_cons_zero, List.getD_cons_succ, txTuple]
  rw [if_neg htyne, if_neg hdatene, if_neg (jnumToStr_ne_nil t.amountCents),
    jsNumber_jnumToStr, toOpt_getD _ hfrom, toOpt_getD _ hto, toOpt_getD _ hcat,
    toOpt_getD _ hpm]

theorem map_txTuple_parse_enumFrom (gen : Nat → Str) (today : Str) (now : Int) :
    ∀ (l : List Tx) (n : Nat), (∀ t ∈ l, txWF t) →
      ((List.enumFrom n (l.map txRow)).map
        (fun p => parseRow gen today now p.1 p.2)).map txTuple = l.map txTuple := by
  intro l
  induction l with
  | nil => intro n _; rfl
  | cons t ts ih =>
    intro n h
    simp only [List.map_cons, List.enumFrom]
    rw [txTuple_parseRow_txRow gen today now n t (h t (List.mem_cons.mpr (Or.inl rfl)))]
    rw [ih (n + 1) (fun u hu => h u (List.mem_cons.mpr (Or.inr hu)))]

theorem cr_not_mem_buildCSV (txs : List Tx) (h : ∀ t ∈ txs, txWF t) :
    ¬(('\r' : Char) ∈ buildCSV txs) := by
  intro hm
  rcases mem_intercalateChar '\n' _ '\r' hm with hc | ⟨xs, hxs, hmem⟩
  · exact absurd hc (by decide)
  · rcases List.mem_cons.mp hxs with rfl | hxs'
    · exact absurd hmem (by decide)
    · obtain ⟨t, ht, rfl⟩ := List.mem_map.mp hxs'
      exact not_mem_txRow t (h t ht) (Or.inr rfl) hmem

/-- C6 (amended): exporting with `buildCSV` and re-importing with `parseCSV`
reproduces the multiset of (type, date, amountCents, accountFromId,
accountToId, categoryId, paymentMethod) tuples, for transaction lists whose
fields are free of the unquoted delimiters (no comma, newline or carriage
return in any serialized field; type and date nonempty; optional references
never the empty string; note free of line breaks).  Ids and timestamps may
differ. -/
theorem csv_roundtrip_wellformed (gen : Nat → Str) (today : Str) (now : Int)
    (txs : List Tx) (h : ∀ t ∈ txs, txWF t) :
    ((parseCSV gen today now (buildCSV txs)).map txTuple).Perm (txs.map txTuple) := by
  have hclean : (buildCSV txs).filter (fun ch => !decide (ch = '\r')) = buildCSV txs := by
    apply List.filter_eq_self.mpr
    intro ch hch
    simp only [Bool.not_eq_true', decide_eq_false_iff_not]
    intro hc
    exact cr_not_mem_buildCSV txs h (hc ▸ hch)
  have hsplit : splitOnChar '\n' (buildCSV txs) = csvHeader :: txs.map txRow := by
    apply splitOnChar_intercalateChar
    · simp
    · intro xs hxs
      rcases List.mem_cons.mp hxs with rfl | hxs'
      · decide
      · obtain ⟨t, ht, rfl⟩ := List.mem_map.mp hxs'
        exact not_mem_txRow t (h t ht) (Or.inl rfl)
  have hfilter : (csvHeader :: txs.map txRow).filter (fun l => !decide (l = []))
      = csvHeader :: txs.map txRow := by
    apply List.filter_eq_self.mpr
    intro l hl
    rcases List.mem_cons.mp hl with rfl | hl'
    · decide
    · obtain ⟨t, ht, rfl⟩ := List.mem_map.mp hl'
      simp [txRow_ne_nil t]
  simp only [parseCSV, hclean, hsplit, hfilter]
  cases txs with
  | nil => simp
  | cons t ts =>
    have hlen : ¬((csvHeader :: (t :: ts).map txRow).length ≤ 1) := by
      simp only [List.length_cons, List.length_map]
      omega
    rw [if_neg hlen]
    rw [show List.drop 1 (csvHeader :: (t :: ts).map txRow) = (t :: ts).map txRow
      from rfl]
    rw [show List.enum ((t :: ts).map txRow) = List.enumFrom 0 ((t :: ts).map txRow)
      from rfl]
    rw [map_txTuple_parse_enumFrom gen today now (t :: ts) 0 h]

/-- C6 counterexample: the round trip is not lossless for every transaction
list.  A transaction whose `accountFromId` is the empty string (a legal
`string | null` value) serializes to an empty column, which re-imports as
`null`, so the multiset of tuples changes. -/
theorem csv_roundtrip_fails_on_empty_optional_field :
    ¬(((parseCSV genW todayW 0 (buildCSV [ceTx6])).map txTuple).Perm
        ([ceTx6].map txTuple)) := by
  decide

theorem csv_roundtrip_wellformed_witness :
    (∀ t ∈ [wTxExpense, wTxIncome], txWF t) ∧
    ((parseCSV genW todayW 0 (buildCSV [wTxExpense, wTxIncome])).map txTuple).Perm
      ([wTxExpense, wTxIncome].map txTuple) :=
  ⟨by decide, csv_roundtrip_wellformed genW todayW 0 [wTxExpense, wTxIncome] (by decide)⟩

theorem enumFrom_map_getElem {α β : Type} (g : Nat → α → β) :
    ∀ (l : List α) (n i : Nat) (x : α), l[i]? = some x →
      ((List.enumFrom n l).map (fun p => g p.1 p.2))[i]? = some (g (n + i) x) := by
  intro l
  induction l with
  | nil => intro n i x h; simp at h
  | cons a as ih =>
    intro n i x h
    cases i with
    | zero =>
      simp only [List.getElem?_cons_zero, Option.some.injEq] at h
      subst h
      simp [List.enumFrom]
    | succ j =>
      simp only [List.getElem?_cons_succ] at h
      simp only [List.enumFrom, List.map_cons, List.getElem?_cons_succ]
      rw [ih (n + 1) j x h]
      have heq : n + 1 + j = n + (j + 1) := by omega
      rw [heq]

/-- C7 (amended): every data row of the import text yields a transaction
(none is rejected); a row whose id column is empty receives the freshly
generated id for its row index; a row whose amount column is empty yields
`amountCents = 0`.  (A nonempty amount column that does not parse as a
number yields `NaN` rather than `0`, as the counterexample shows; such a
transaction is inert in balance computation, where `NaN` coerces to `0`.) -/
theorem parseCSV_imports_every_row (gen : Nat → Str) (today : Str) (now : Int)
    (text : Str)
    (hlen : 1 < ((splitOnChar '\n' (text.filter (fun ch => !decide (ch = '\r')))).filter
        (fun l => !decide (l = []))).length) :
    (parseCSV gen today now text).length
      = ((splitOnChar '\n' (text.filter (fun ch => !decide (ch = '\r')))).filter
          (fun l => !decide (l = []))).length - 1 ∧
    (∀ (i : Nat) (line : Str),
      (((splitOnChar '\n' (text.filter (fun ch => !decide (ch = '\r')))).filter
          (fun l => !decide (l = []))).drop 1)[i]? = some line →
      (parseCSV gen today now text)[i]? = some (parseRow gen today now i line)) ∧
    (∀ (i : Nat) (line : Str), (splitOnChar ',' line).getD 0 [] = [] →
      (parseRow gen today now i line).id = gen i) ∧
    (∀ (i : Nat) (line : Str), (splitOnChar ',' line).getD 3 [] = [] →
      (parseRow gen today now i line).amountCents = JNum.num 0) := by
  have hnot : ¬(((splitOnChar '\n' (text.filter (fun ch => !decide (ch = '\r')))).filter
      (fun l => !decide (l = []))).length ≤ 1) := by omega
  refine ⟨?_, ?_, ?_, ?_⟩
  · simp only [parseCSV]
    rw [if_neg hnot]
    rw [List.length_map, List.enum_length, List.length_drop]
  · intro i line hline
    simp only [parseCSV]
    rw [if_neg hnot]
    rw [show List.enum (((splitOnChar '\n' (text.filter (fun ch => !decide (ch = '\r')))).filter
        (fun l => !decide (l = []))).drop 1)
      = List.enumFrom 0 (((splitOnChar '\n' (text.filter (fun ch => !decide (ch = '\r')))).filter
        (fun l => !decide (l = []))).drop 1) from rfl]
    rw [enumFrom_map_getElem _ _ 0 i line hline]
    rw [Nat.zero_add]
  · intro i line hid
    simp only [parseRow]
    rw [if_pos hid]
  · intro i line hamt
    simp only [parseRow]
    rw [if_pos hamt]

/-- C7 counterexample: a row whose amount column is the nonempty but
unparseable string "abc" imports with `amountCents = NaN`, not `0`
(`Number("abc")` is NaN; the `|| 0` fallback only fires for the empty
column). -/
theorem parseCSV_unparseable_amount_nan :
    (parseCSV genW todayW 0 ceText7).map (fun t => t.amountCents) = [JNum.nan] ∧
    ¬(JNum.nan = JNum.num 0) := by
  decide

theorem parseCSV_imports_every_row_witness :
    (1 < ((splitOnChar '\n' (ceText7good.filter (fun ch => !decide (ch = '\r')))).filter
        (fun l => !decide (l = []))).length) ∧
    ((parseCSV genW todayW 0 ceText7good).length
      = ((splitOnChar '\n' (ceText7good.filter (fun ch => !decide (ch = '\r')))).filter
          (fun l => !decide (l = []))).length - 1 ∧
    (∀ (i : Nat) (line : Str),
      (((splitOnChar '\n' (ceText7good.filter (fun ch => !decide (ch = '\r')))).filter
          (fun l => !decide (l = []))).drop 1)[i]? = some line →
      (parseCSV genW todayW 0 ceText7good)[i]? = some (parseRow genW todayW 0 i line)) ∧
    (∀ (i : Nat) (line : Str), (splitOnChar ',' line).getD 0 [] = [] →
      (parseRow genW todayW 0 i line).id = genW i) ∧
    (∀ (i : Nat) (line : Str), (splitOnChar ',' line).getD 3 [] = [] →
      (parseRow genW todayW 0 i line).amountCents = JNum.num 0)) :=
  ⟨by decide, parseCSV_imports_every_row genW todayW 0 ceText7good (by decide)⟩

theorem getKey_gastoFold (mk : Str → Str) :
    ∀ (txs : List Tx) (m : List (Str × JNum)) (k : Str),
      getKey (txs.foldl (gastoStep mk) m) k
        = applyGroup
            (txs.filter (fun t => decide (t.type = strGASTO) && decide (mk t.date = k)))
            (getKey m k) := by
  intro txs
  induction txs with
  | nil => intro m k; rfl
  | cons t ts ih =>
    intro m k
    rw [List.foldl_cons]
    by_cases hG : t.type = strGASTO
    · by_cases hK : mk t.date = k
      · have hstep : gastoStep mk m t
            = setKey m k ((jOr0get (getKey m k)).add t.amountCents) := by
          rw [gastoStep, if_pos hG, hK]
        have hfil : (t :: ts).filter
              (fun u => decide (u.type = strGASTO) && decide (mk u.date = k))
            = t :: ts.filter (fun u => decide (u.type = strGASTO) && decide (mk u.date = k)) := by
          simp [List.filter_cons, hG, hK]
        rw [hstep, ih, hfil, getKey_setKey_self]
        rfl
      · have hstep : gastoStep mk m t
            = setKey m (mk t.date) ((jOr0get (getKey m (mk t.date))).add t.amountCents) := by
          rw [gastoStep, if_pos hG]
        have hfil : (t :: ts).filter
              (fun u => decide (u.type = strGASTO) && decide (mk u.date = k))
            = ts.filter (fun u => decide (u.type = strGASTO) && decide (mk u.date = k)) := by
          simp [List.filter_cons, hK]
        rw [hstep, hfil,
          ih (setKey m (mk t.date) ((jOr0get (getKey m (mk t.date))).add t.amountCents)) k,
          getKey_setKey_ne m (mk t.date) k _ (fun hc => hK hc.symm)]
    · have hstep : gastoStep mk m t = m := by rw [gastoStep, if_neg hG]
      have hfil : (t :: ts).filter
            (fun u => decide (u.type = strGASTO) && decide (mk u.date = k))
          = ts.filter (fun u => decide (u.type = strGASTO) && decide (mk u.date = k)) := by
        simp [List.filter_cons, hG]
      rw [hstep, hfil, ih]

theorem applyGroup_some (l : List Tx) :
    ∀ v : JNum, applyGroup l (some v)
      = some (l.foldl (fun v t => (v.or0).add t.amountCents) v) := by
  induction l with
  | nil => intro v; rfl
  | cons t ts ih =>
    intro v
    rw [show applyGroup (t :: ts) (some v)
        = applyGroup ts (some ((jOr0get (some v)).add t.amountCents)) from rfl, ih]
    rfl

theorem applyGroup_none (l : List Tx) (h : ¬(l = [])) :
    applyGroup l none
      = some (l.foldl (fun v t => (v.or0).add t.amountCents) (JNum.num 0)) := by
  cases l with
  | nil => exact absurd rfl h
  | cons t ts =>
    rw [show applyGroup (t :: ts) none
        = applyGroup ts (some ((JNum.num 0).add t.amountCents)) from rfl,
      applyGroup_some]
    rfl

theorem getKey_gastoMap (mk : Str → Str) (txs : List Tx) (k : Str) :
    getKey (gastoMap mk txs) k
      = if (txs.filter (fun t => decide (t.type = strGASTO) && decide (mk t.date = k))) = []
        then none else some (monthTotal mk txs k) := by
  rw [gastoMap, getKey_gastoFold mk txs [] k]
  by_cases h : (txs.filter (fun t => decide (t.type = strGASTO) && decide (mk t.date = k))) = []
  · rw [if_pos h, h]
    rfl
  · rw [if_neg h]
    rw [show getKey ([] : List (Str × JNum)) k = none from rfl]
    rw [applyGroup_none _ h]
    rfl

theorem mem_keys_gastoMap (mk : Str → Str) (txs : List Tx) (k : Str) :
    k ∈ (gastoMap mk txs).map Prod.fst ↔
      ∃ t ∈ txs, t.type = strGASTO ∧ mk t.date = k := by
  rw [mem_keys_iff_isSome, getKey_gastoMap]
  by_cases h : (txs.filter (fun t => decide (t.type = strGASTO) && decide (mk t.date = k))) = []
  · rw [if_pos h]
    rw [List.filter_eq_nil] at h
    simp only [Option.isSome_none, Bool.false_eq_true, false_iff]
    rintro ⟨t, ht, h1, h2⟩
    exact h t ht (by simp [h1, h2])
  · rw [if_neg h]
    simp only [Option.isSome_some, true_iff]
    obtain ⟨t, ht⟩ := List.exists_mem_of_ne_nil _ h
    rw [List.mem_filter] at ht
    refine ⟨t, ht.1, ?_, ?_⟩
    · have := ht.2
      simp only [Bool.and_eq_true, decide_eq_true_eq] at this
      exact this.1
    · have := ht.2
      simp only [Bool.and_eq_true, decide_eq_true_eq] at this
      exact this.2

theorem strLe_total : ∀ a b : Str, strLe a b = true ∨ strLe b a = true := by
  intro a
  induction a with
  | nil => intro b; exact Or.inl rfl
  | cons x xs ih =>
    intro b
    cases b with
    | nil => exact Or.inr rfl
    | cons y ys =>
      by_cases h1 : x.toNat < y.toNat
      · left
        simp [strLe, h1]
      · by_cases h2 : y.toNat < x.toNat
        · right
          simp [strLe, h2]
        · rcases ih ys with h | h
          · left
            simp [strLe, h1, h2, h]
          · right
            simp [strLe, h1, h2, h]

theorem strLe_trans : ∀ a b c : Str,
    strLe a b = true → strLe b c = true → strLe a c = true := by
  intro a
  induction a with
  | nil => intro b c _ _; rfl
  | cons x xs ih =>
    intro b c hab hbc
    cases b with
    | nil => simp [strLe] at hab
    | cons y ys =>
      cases c with
      | nil => simp [strLe] at hbc
      | cons z zs =>
        rw [show strLe (x :: xs) (y :: ys)
            = (if x.toNat < y.toNat then true
               else if y.toNat < x.toNat then false else strLe xs ys) from rfl] at hab
        rw [show strLe (y :: ys) (z :: zs)
            = (if y.toNat < z.toNat then true
               else if z.toNat < y.toNat then false else strLe ys zs) from rfl] at hbc
        rw [show strLe (x :: xs) (z :: zs)
            = (if x.toNat < z.toNat then true
               else if z.toNat < x.toNat then false else strLe xs zs) from rfl]
        by_cases hxy : x.toNat < y.toNat
        · by_cases hyz : y.toNat < z.toNat
          · rw [if_pos (by omega)]
          · by_cases hzy : z.toNat < y.toNat
            · rw [if_neg hyz, if_pos hzy] at hbc
              cases hbc
            · rw [if_pos (by omega)]
        · by_cases hyx : y.toNat < x.toNat
          · rw [if_neg hxy, if_pos hyx] at hab
            cases hab
          · rw [if_neg hxy, if_neg hyx] at hab
            by_cases hyz : y.toNat < z.toNat
            · rw [if_pos (by omega)]
            · by_cases hzy : z.toNat < y.toNat
              · rw [if_neg hyz, if_pos hzy] at hbc
                cases hbc
              · rw [if_neg hyz, if_neg hzy] at hbc
                rw [if_neg (show ¬(x.toNat < z.toNat) by omega),
                  if_neg (show ¬(z.toNat < x.toNat) by omega)]
                exact ih ys zs hab hbc

theorem nodup_keys_gastoMap (mk : Str → Str) (txs : List Tx) :
    ((gastoMap mk txs).map Prod.fst).Nodup := by
  rw [gastoMap]
  have : ∀ (l : List Tx) (m : List (Str × JNum)), (m.map Prod.fst).Nodup →
      ((l.foldl (gastoStep mk) m).map Prod.fst).Nodup := by
    intro l
    induction l with
    | nil => intro m hm; exact hm
    | cons t ts ihl =>
      intro m hm
      rw [List.foldl_cons]
      refine ihl _ ?_
      rw [gastoStep]
      by_cases hG : t.type = strGASTO
      · rw [if_pos hG]
        exact nodup_keys_setKey _ _ _ hm
      · rw [if_neg hG]
        exact hm
  exact this txs [] (by simp)

/-- C8: the by-month view sums only `GASTO` (Expense) amounts, grouped by
the month key of each transaction's date over the entire transaction list;
it returns the (at most) 6 greatest distinct month keys present, sorted
ascending in the code-unit string order (chronological for zero-padded
`YYYY-MM` keys), each paired with its accumulated total; with more than 6
distinct months present exactly the latest 6 remain. -/
theorem gastosPorMes_spec (mk : Str → Str) (txs : List Tx) :
    gastosPorMes mk txs
      = ((List.insertionSort (fun a b : Str => strLe a b = true)
            ((gastoMap mk txs).map (fun p => p.1))).drop
          ((List.insertionSort (fun a b : Str => strLe a b = true)
            ((gastoMap mk txs).map (fun p => p.1))).length - 6)).map
          (fun k => (k, monthTotal mk txs k)) ∧
    List.Sorted (fun a b : Str => strLe a b = true)
      ((gastosPorMes mk txs).map (fun p => p.1)) ∧
    (gastosPorMes mk txs).length
      = min ((gastoMap mk txs).map (fun p => p.1)).length 6 ∧
    (∀ k : Str, k ∈ (gastoMap mk txs).map (fun p => p.1) ↔
      ∃ t ∈ txs, t.type = strGASTO ∧ mk t.date = k) := by
  have hperm := List.perm_insertionSort (fun a b : Str => strLe a b = true)
    ((gastoMap mk txs).map (fun p => p.1))
  refine ⟨?_, ?_, ?_, ?_⟩
  · simp only [gastosPorMes]
    apply List.map_congr_left
    intro k hk
    have hkk : k ∈ (gastoMap mk txs).map (fun p => p.1) :=
      hperm.mem_iff.mp (List.mem_of_mem_drop hk)
    have hsome : (getKey (gastoMap mk txs) k).isSome = true :=
      (mem_keys_iff_isSome (gastoMap mk txs) k).mp hkk
    by_cases hfil : (txs.filter
        (fun t => decide (t.type = strGASTO) && decide (mk t.date = k))) = []
    · rw [getKey_gastoMap, if_pos hfil] at hsome
      cases hsome
    · rw [getKey_gastoMap, if_neg hfil, Option.getD_some]
  · simp only [gastosPorMes]
    rw [List.map_map,
      show ((fun p : Str × JNum => p.1) ∘
          (fun k => (k, (getKey (gastoMap mk txs) k).getD (JNum.num 0)))) = id
        from funext (fun k => rfl), List.map_id]
    haveI : IsTotal Str (fun a b : Str => strLe a b = true) := ⟨strLe_total⟩
    haveI : IsTrans Str (fun a b : Str => strLe a b = true) := ⟨strLe_trans⟩
    have hsorted : List.Sorted (fun a b : Str => strLe a b = true)
        (List.insertionSort (fun a b : Str => strLe a b = true)
          ((gastoMap mk txs).map (fun p => p.1))) :=
      List.sorted_insertionSort (fun a b : Str => strLe a b = true)
        ((gastoMap mk txs).map (fun p => p.1))
    exact List.Pairwise.sublist (List.drop_sublist _ _) hsorted
  · simp only [gastosPorMes]
    rw [List.length_map, List.length_drop, hperm.length_eq]
    omega
  · exact mem_keys_gastoMap mk txs

/-- Scenario F sanity check: with 8 distinct Expense months, the by-month
view returns exactly the latest 6 months, ascending (month key here:
the first 7 characters of the ISO date). -/
theorem gastosPorMes_eight_months :
    (gastosPorMes (fun d => d.take 7) eightMonthTxs).map (fun p => p.1)
      = [str "2024-03", str "2024-04", str "2024-05", str "2024-06",
         str "2024-07", str "2024-08"] := by
  decide

end Hasaba
